import Mathlib

/-!
Sum of sales: CSV ingestion (src/script.js)

A shallow embedding of `parseDataUrl`, `decodeBase64ToText`, `parseCsv` and of
the text extraction, column location and aggregation steps of `init`.

A JavaScript string is modelled as the list of its characters.  The scanner of
`parseCsv` only ever compares a character with the double quote, the line feed
and the chosen delimiter and copies every other character verbatim, so the
model does not depend on how characters outside the basic plane are encoded.
-/

namespace SumOfSales

/-- A JavaScript string, as the list of its characters. -/
abbrev JSString := List Char

/-! ## String primitives used by the script -/

/-- `s.split(d)` for a one-character separator `d`: the pieces between the
occurrences of `d`; the empty string splits into one empty piece. -/
def jsSplit (d : Char) : JSString → List JSString
  | [] => [[]]
  | c :: cs =>
    if c = d then [] :: jsSplit d cs
    else
      match jsSplit d cs with
      | [] => [[c]]
      | h :: t => (c :: h) :: t

/-- `s.indexOf(d)` for a one-character `d`: `none` stands for `-1`. -/
def jsIndexOf (d : Char) : JSString → Option Nat
  | [] => none
  | c :: cs => if c = d then some 0 else (jsIndexOf d cs).map (· + 1)

/-- `s.startsWith(p)`. -/
def jsStartsWith : JSString → JSString → Bool
  | _, [] => true
  | [], _ :: _ => false
  | c :: cs, p :: ps => c == p && jsStartsWith cs ps

/-- `s.substring(a, b)` for `a ≤ b`. -/
def jsSubstring (s : JSString) (a b : Nat) : JSString :=
  (s.take b).drop a

/-- `s.substring(a)`. -/
def jsSubstringFrom (s : JSString) (a : Nat) : JSString :=
  s.drop a

/-! ## parseDataUrl (script.js lines 2-16) -/

/-- The object returned by `parseDataUrl`. -/
structure DataUrl where
  mime : JSString
  isBase64 : Bool
  payload : JSString
  deriving DecidableEq, Repr

/-- `parseDataUrl(url)`; `none` stands for `null`. -/
def parseDataUrl (url : JSString) : Option DataUrl :=
  if !jsStartsWith url "data:".toList then none
  else
    match jsIndexOf ',' url with
    | none => none
    | some commaIndex =>
      let header := jsSubstring url 5 commaIndex
      let payload := jsSubstringFrom url (commaIndex + 1)
      let parts := jsSplit ';' header
      -- `parts[0] || 'text/plain'`: the empty string is falsy
      let mime := if parts.headD [] = [] then "text/plain".toList else parts.headD []
      let isBase64 := parts.contains "base64".toList
      some { mime := mime, isBase64 := isBase64, payload := payload }

/-! ## parseCsv (script.js lines 34-99) -/

/-- `text.replace(/\r\n/g, '\n')`. -/
def replaceCRLF : JSString → JSString
  | [] => []
  | [c] => [c]
  | c :: d :: rest =>
    if c = '\r' ∧ d = '\n' then '\n' :: replaceCRLF rest
    else c :: replaceCRLF (d :: rest)

/-- `text.replace(/\r/g, '\n')`. -/
def replaceCR (text : JSString) : JSString :=
  text.map (fun c => if c = '\r' then '\n' else c)

/-- Line 36: both replacements, in the order of the source. -/
def normalizeNewlines (text : JSString) : JSString :=
  replaceCR (replaceCRLF text)

/-- Lines 39-41: drop a leading U+FEFF. -/
def stripBOM (text : JSString) : JSString :=
  match text with
  | [] => []
  | c :: rest => if c.toNat = 0xFEFF then rest else c :: rest

/-- Line 48: `text.split('\n')[0]`. -/
def firstLine (text : JSString) : JSString :=
  (jsSplit '\n' text).headD []

/-- Line 50: the number of matches of the one-character pattern `delim`. -/
def countMatches (delim : Char) (line : JSString) : Nat :=
  line.count delim

/-- Lines 49-55, one iteration: the pair is `(delimiter, maxDelimiters)`. -/
def sniffStep (line : JSString) (st : Char × Nat) (delim : Char) : Char × Nat :=
  let count := countMatches delim line
  if count > st.2 then (delim, count) else st

/-- Line 44: the candidate delimiters, in the order they are tried. -/
def delimiters : List Char := [',', ';', '\t']

/-- Lines 44-55: the delimiter chosen from the first line. -/
def sniffDelimiter (line : JSString) : Char :=
  (delimiters.foldl (sniffStep line) (',', 0)).1

/-- The variables of the scanning loop: `rows`, `current`, `inQuotes`. -/
structure ScanState where
  rows : List (List JSString)
  current : JSString
  inQuotes : Bool
  deriving DecidableEq, Repr

/-- Lines 63-78, the body of the loop at `char`, with `next` the character
after it (`none` at the end of the text, where `nextChar` is `''`).  The
boolean is `true` when the body executes `i++`. -/
def scanStep (delimiter : Char) (char : Char) (next : Option Char)
    (st : ScanState) : ScanState × Bool :=
  if char = '"' ∧ st.inQuotes = false then
    ({ st with inQuotes := true }, false)
  else if char = '"' ∧ next = some '"' then
    ({ st with current := st.current ++ [char] }, true)
  else if char = '"' ∧ st.inQuotes = true then
    ({ st with inQuotes := false }, false)
  else if char = '\n' ∧ st.inQuotes = false then
    ({ st with rows := st.rows ++ [jsSplit delimiter st.current], current := [] }, false)
  else
    ({ st with current := st.current ++ [char] }, false)

/-- Lines 62-79: the loop over the text. -/
def scan (delimiter : Char) : JSString → ScanState → ScanState
  | [], st => st
  | [c], st => (scanStep delimiter c none st).1
  | c :: d :: rest, st =>
    if (scanStep delimiter c (some d) st).2 then
      scan delimiter rest (scanStep delimiter c (some d) st).1
    else
      scan delimiter (d :: rest) (scanStep delimiter c (some d) st).1

/-- Lines 58-60: the state before the loop. -/
def ScanState.init : ScanState :=
  { rows := [], current := [], inQuotes := false }

/-- Lines 82-84: the last row, when the buffer is not empty. -/
def flush (delimiter : Char) (st : ScanState) : List (List JSString) :=
  if st.current ≠ [] then st.rows ++ [jsSplit delimiter st.current] else st.rows

/-- Lines 57-84: the rows of an already normalized text for a delimiter. -/
def tokenize (delimiter : Char) (text : JSString) : List (List JSString) :=
  flush delimiter (scan delimiter text ScanState.init)

/-- Lines 35-41: the text the rest of `parseCsv` works on. -/
def prepare (text : JSString) : JSString :=
  stripBOM (normalizeNewlines text)

/-- Lines 35-84: the rows of `parseCsv` before the header is looked at. -/
def tokenizedRows (text : JSString) : List (List JSString) :=
  tokenize (sniffDelimiter (firstLine (prepare text))) (prepare text)

/-! ## Number values

`parseFloat`, `+` and `toFixed` work on IEEE 754 binary64 values.  A finite
value is kept as sign, significand and binary exponent, `(-1)^neg * m * 2^e`,
in the canonical form of the format: `m < 2^53`, `-1074 ≤ e ≤ 971`, and
`m < 2^52` only for `e = -1074`.  Every operation computes the exact rational
result and rounds it to the nearest value, ties to even. -/

/-- A Number value. -/
inductive JSNumber
  | nan
  | inf (neg : Bool)
  | fin (neg : Bool) (m : Nat) (e : Int)
  deriving DecidableEq, Repr

/-- Exponent of the least significant bit of a subnormal value. -/
def minExp : Int := -1074

/-- Largest exponent of the least significant bit of a finite value. -/
def maxExp : Int := 971

/-- The Number `+0`, the initial value of `totalSales`. -/
def JSNumber.zero : JSNumber := .fin false 0 minExp

/-- `isNaN(x)` for a Number `x`. -/
def JSNumber.isNaN : JSNumber → Bool
  | .nan => true
  | _ => false

/-- Floor of the binary logarithm, by halving. -/
def log2Floor : Nat → Nat → Nat
  | 0, _ => 0
  | fuel + 1, n => if n < 2 then 0 else log2Floor fuel (n / 2) + 1

/-- Numerator of `n / (d * 2^e)`. -/
def scaledNum (n : Nat) (e : Int) : Nat := if e < 0 then n * 2 ^ (-e).toNat else n

/-- Denominator of `n / (d * 2^e)`. -/
def scaledDen (d : Nat) (e : Int) : Nat := if e < 0 then d else d * 2 ^ e.toNat

/-- The integer nearest to `n / d`, ties to the even one. -/
def roundHalfEven (n d : Nat) : Nat :=
  if 2 * (n % d) < d then n / d
  else if d < 2 * (n % d) then n / d + 1
  else if (n / d) % 2 = 0 then n / d
  else n / d + 1

/-- The Number nearest to `(-1)^neg * n / d` (round to nearest, ties to even,
overflow to infinity, gradual underflow). -/
def roundToDouble (neg : Bool) (n d : Nat) : JSNumber :=
  if n = 0 then .fin neg 0 minExp
  else
    let e0 : Int := (log2Floor n n : Int) - (log2Floor d d : Int) - 53
    let e1 : Int := max e0 minExp
    let e2 : Int := if 2 ^ 53 ≤ scaledNum n e1 / scaledDen d e1 then e1 + 1 else e1
    let m := roundHalfEven (scaledNum n e2) (scaledDen d e2)
    let m3 : Nat := if m = 2 ^ 53 then 2 ^ 52 else m
    let e3 : Int := if m = 2 ^ 53 then e2 + 1 else e2
    if maxExp < e3 then .inf neg else .fin neg m3 e3

/-- Numerator of the value `m * 2^e`. -/
def finNum (m : Nat) (e : Int) : Nat := if 0 ≤ e then m * 2 ^ e.toNat else m

/-- Denominator of the value `m * 2^e`. -/
def finDen (e : Int) : Nat := if 0 ≤ e then 1 else 2 ^ (-e).toNat

/-- The integer `(-1)^neg * n`. -/
def signedInt (neg : Bool) (n : Nat) : Int := if neg then -(n : Int) else (n : Int)

/-- The operator `+` on Numbers (`totalSales += salesValue`, line 160). -/
def JSNumber.add : JSNumber → JSNumber → JSNumber
  | .nan, _ => .nan
  | _, .nan => .nan
  | .inf a, .inf b => if a = b then .inf a else .nan
  | .inf a, .fin _ _ _ => .inf a
  | .fin _ _ _, .inf b => .inf b
  | .fin s1 m1 e1, .fin s2 m2 e2 =>
    let e := min e1 e2
    let t : Int :=
      signedInt s1 (m1 * 2 ^ (e1 - e).toNat) + signedInt s2 (m2 * 2 ^ (e2 - e).toNat)
    if t = 0 then .fin (s1 && s2) 0 minExp
    else roundToDouble (decide (t < 0)) (finNum t.natAbs e) (finDen e)

/-! ## parseFloat, trim, toLowerCase, toFixed -/

/-- White space and line terminators, as skipped by `parseFloat` and removed
by `trim`. -/
def isStrWhiteSpaceChar (c : Char) : Bool :=
  let n := c.toNat
  n == 0x9 || n == 0xA || n == 0xB || n == 0xC || n == 0xD || n == 0x20 || n == 0xA0
    || n == 0x1680 || (decide (0x2000 ≤ n) && decide (n ≤ 0x200A)) || n == 0x2028
    || n == 0x2029 || n == 0x202F || n == 0x205F || n == 0x3000 || n == 0xFEFF

/-- A decimal digit `0`..`9`. -/
def isDecimalDigit (c : Char) : Bool :=
  decide ('0'.toNat ≤ c.toNat) && decide (c.toNat ≤ '9'.toNat)

/-- The value of a string of decimal digits. -/
def digitsValue (ds : JSString) : Nat :=
  ds.foldl (fun acc c => 10 * acc + (c.toNat - '0'.toNat)) 0

/-- The grammar's `SignedInteger` at the start of `s`, if there is one. -/
def signedInteger (s : JSString) : Option Int :=
  match s with
  | [] => none
  | c :: rest =>
    if c = '+' then
      (if rest.takeWhile isDecimalDigit = [] then none
       else some (digitsValue (rest.takeWhile isDecimalDigit) : Int))
    else if c = '-' then
      (if rest.takeWhile isDecimalDigit = [] then none
       else some (-(digitsValue (rest.takeWhile isDecimalDigit) : Int)))
    else
      (if (c :: rest).takeWhile isDecimalDigit = [] then none
       else some (digitsValue ((c :: rest).takeWhile isDecimalDigit) : Int))

/-- The value of the `ExponentPart` at the start of `s`; `0` when `s` does
not start with one (an `e` without digits after it is not part of the
literal). -/
def exponentPart (s : JSString) : Int :=
  match s with
  | [] => 0
  | c :: rest => if c = 'e' ∨ c = 'E' then (signedInteger rest).getD 0 else 0

/-- The longest prefix of `s` that is a `StrUnsignedDecimalLiteral` other than
`Infinity`, as its digits and decimal exponent: the literal denotes
`digits * 10^exp10`. -/
def strUnsignedDecimalLiteral (s : JSString) : Option (Nat × Int) :=
  let intDigits := s.takeWhile isDecimalDigit
  match s.dropWhile isDecimalDigit with
  | [] => if intDigits = [] then none else some (digitsValue intDigits, 0)
  | c :: rest =>
    if c = '.' then
      let fracDigits := rest.takeWhile isDecimalDigit
      if intDigits = [] ∧ fracDigits = [] then none
      else some (digitsValue (intDigits ++ fracDigits),
                 exponentPart (rest.dropWhile isDecimalDigit) - (fracDigits.length : Int))
    else if intDigits = [] then none
    else some (digitsValue intDigits, exponentPart (c :: rest))

/-- The Number for the mathematical value `digits * 10^exp10`. -/
def roundMV (neg : Bool) (digits : Nat) (exp10 : Int) : JSNumber :=
  if 0 ≤ exp10 then roundToDouble neg (digits * 10 ^ exp10.toNat) 1
  else roundToDouble neg digits (10 ^ (-exp10).toNat)

/-- The Number of the longest `StrUnsignedDecimalLiteral` prefix of `s`, with
the sign already read; `NaN` when there is no such prefix. -/
def strDecimalLiteral (neg : Bool) (s : JSString) : JSNumber :=
  if jsStartsWith s "Infinity".toList then .inf neg
  else
    match strUnsignedDecimalLiteral s with
    | none => .nan
    | some (digits, exp10) => roundMV neg digits exp10

/-- `parseFloat(s)` for a string `s`. -/
def parseFloat (s : JSString) : JSNumber :=
  match s.dropWhile isStrWhiteSpaceChar with
  | [] => .nan
  | c :: rest =>
    if c = '-' then strDecimalLiteral true rest
    else if c = '+' then strDecimalLiteral false rest
    else strDecimalLiteral false (c :: rest)

/-- `s.trim()`. -/
def jsTrim (s : JSString) : JSString :=
  ((s.dropWhile isStrWhiteSpaceChar).reverse.dropWhile isStrWhiteSpaceChar).reverse

/-- Lower-casing of one character.  Only the basic Latin capitals and the two
other characters whose lower-case form contains a basic Latin letter are
mapped; every other character lower-cases to characters outside the basic
Latin range and is left as it is, which does not change a comparison with a
basic Latin literal such as `'sales'`. -/
def lowerChar (c : Char) : JSString :=
  if 'A'.toNat ≤ c.toNat ∧ c.toNat ≤ 'Z'.toNat then [Char.ofNat (c.toNat + 32)]
  else if c.toNat = 0x212A then ['k']
  else if c.toNat = 0x130 then ['i', Char.ofNat 0x307]
  else [c]

/-- `s.toLowerCase()`. -/
def jsToLowerCase : JSString → JSString
  | [] => []
  | c :: cs => lowerChar c ++ jsToLowerCase cs

/-- The decimal digits of a natural number. -/
def decimalDigits (n : Nat) : JSString := Nat.toDigits 10 n

/-- The shortest decimal digits that read back as the positive integer-valued
Number `x` of value `X`: the result is `(s, k, n)` with `s` of `k` digits and
`s * 10^(n-k)` rounding to `x`, `k` as small as possible and `s` as close to
`X` as possible. -/
def shortestDigits (x : JSNumber) (X : Nat) : Nat → Nat → Nat × Nat × Nat
  | 0, k => (X / 10 ^ ((decimalDigits X).length - k), k, (decimalDigits X).length)
  | fuel + 1, k =>
    let N := (decimalDigits X).length
    let p := 10 ^ (N - k)
    let lo := X / p * p
    let hi := lo + p
    let okLo := decide (roundToDouble false lo 1 = x)
    let okHi := decide (roundToDouble false hi 1 = x)
    let sLo := (lo / p, k, N)
    let sHi := if lo / p + 1 = 10 ^ k then (10 ^ (k - 1), k, N + 1) else (lo / p + 1, k, N)
    if okLo && okHi then
      (if X - lo < hi - X then sLo
       else if hi - X < X - lo then sHi
       else if (lo / p) % 2 = 0 then sLo else sHi)
    else if okLo then sLo
    else if okHi then sHi
    else shortestDigits x X fuel (k + 1)

/-- `String(x)` for a finite `x` of integer value `X ≥ 10^21`: exponential
form. -/
def toStringLarge (x : JSNumber) (X : Nat) : JSString :=
  match shortestDigits x X 17 1 with
  | (s, k, n) =>
    if k = 1 then decimalDigits s ++ "e+".toList ++ decimalDigits (n - 1)
    else (decimalDigits s).take 1 ++ ['.'] ++ (decimalDigits s).drop 1 ++ "e+".toList
      ++ decimalDigits (n - 1)

/-- `x.toFixed(2)` (line 165). -/
def toFixed2 : JSNumber → JSString
  | .nan => "NaN".toList
  | .inf false => "Infinity".toList
  | .inf true => "-Infinity".toList
  | .fin neg m e =>
    let s : JSString := if neg = true ∧ m ≠ 0 then ['-'] else []
    if 10 ^ 21 * finDen e ≤ finNum m e then
      s ++ toStringLarge (.fin false m e) (finNum m e / finDen e)
    else
      let n := (2 * (100 * finNum m e) + finDen e) / (2 * finDen e)
      let ds := decimalDigits n
      let ds := if ds.length ≤ 2 then List.replicate (3 - ds.length) '0' ++ ds else ds
      s ++ ds.take (ds.length - 2) ++ ['.'] ++ ds.drop (ds.length - 2)

/-! ## Header row (script.js lines 86-98) -/

/-- Line 90, the predicate of `every`:
`isNaN(parseFloat(cell)) || cell.trim() === ''`. -/
def isHeaderCell (cell : JSString) : Bool :=
  (parseFloat cell).isNaN || decide (jsTrim cell = [])

/-- The object returned by `parseCsv`; `none` stands for `null`. -/
structure CsvResult where
  headers : Option (List JSString)
  rows : List (List JSString)
  deriving DecidableEq, Repr

/-- Lines 87-98: take the first row as header when every cell of it is a
header cell. -/
def classifyHeader (rows : List (List JSString)) : CsvResult :=
  match rows with
  | [] => { headers := none, rows := [] }
  | firstRow :: rest =>
    if firstRow.all isHeaderCell then { headers := some firstRow, rows := rest }
    else { headers := none, rows := firstRow :: rest }

/-- `parseCsv(text)`. -/
def parseCsv (text : JSString) : CsvResult :=
  classifyHeader (tokenizedRows text)

/-! ## Column location and aggregation (script.js lines 146-165) -/

/-- `arr.findIndex(p)`; `none` stands for `-1`. -/
def jsFindIndex (p : JSString → Bool) : List JSString → Option Nat
  | [] => none
  | h :: t => if p h then some 0 else (jsFindIndex p t).map (· + 1)

/-- Line 149, the predicate of `findIndex`: `h.toLowerCase() === 'sales'`. -/
def isSalesHeader (h : JSString) : Bool :=
  decide (jsToLowerCase h = "sales".toList)

/-- Lines 147-153: the column that is summed. -/
def salesColumnIndex (headers : Option (List JSString)) : Nat :=
  match headers with
  | none => 1
  | some hs =>
    match jsFindIndex isSalesHeader hs with
    | none => 1
    | some salesHeaderIndex => salesHeaderIndex

/-- The argument of `parseFloat` on line 158: `row[i]` converted to a string;
a missing element is `undefined`. -/
def cellText (row : List JSString) (i : Nat) : JSString :=
  match row[i]? with
  | some cell => cell
  | none => "undefined".toList

/-- Lines 158-161, the body of the loop over the rows. -/
def addRow (salesColumnIndex : Nat) (totalSales : JSNumber) (row : List JSString) :
    JSNumber :=
  if !(parseFloat (cellText row salesColumnIndex)).isNaN then
    totalSales.add (parseFloat (cellText row salesColumnIndex))
  else totalSales

/-- Lines 156-162: the total over the rows. -/
def totalSales (rows : List (List JSString)) (salesColumnIndex : Nat) : JSNumber :=
  rows.foldl (addRow salesColumnIndex) JSNumber.zero

/-- Lines 144-165: the text shown for a decoded CSV text. -/
def salesText (csvText : JSString) : JSString :=
  toFixed2 (totalSales (parseCsv csvText).rows (salesColumnIndex (parseCsv csvText).headers))

/-! ## Reference definitions, in the words of the specification -/

/-- Reference for the normalization of line endings: the text with every CRLF
and every lone CR replaced by one LF, in one pass from left to right. -/
def replaceLineEndings : JSString → JSString
  | [] => []
  | [c] => if c = '\r' then ['\n'] else [c]
  | c :: d :: rest =>
    if c = '\r' ∧ d = '\n' then '\n' :: replaceLineEndings rest
    else if c = '\r' then '\n' :: replaceLineEndings (d :: rest)
    else c :: replaceLineEndings (d :: rest)

/-- Reference: a list of segments without its last segment when that one is
empty. -/
def dropEmptyLast (segments : List JSString) : List JSString :=
  if segments.getLast? = some [] then segments.dropLast else segments

/-- Reference tokenization for a text without quotes: normalize the text,
split it on the line feed, drop the last segment when it is empty, and split
every remaining line on the sniffed delimiter. -/
def naiveRows (text : JSString) : List (List JSString) :=
  (dropEmptyLast (jsSplit '\n' (prepare text))).map
    (jsSplit (sniffDelimiter (firstLine (prepare text))))

/-! ## Platform functions used by decodeBase64ToText and init

`atob`, `TextDecoder.decode` and `decodeURIComponent`, after the HTML, Encoding
and ECMAScript standards.  A byte is a natural number below 256. -/

/-- ASCII white space, which `atob` removes from its argument. -/
def isAsciiWhitespace (c : Char) : Bool :=
  c.toNat == 0x9 || c.toNat == 0xA || c.toNat == 0xC || c.toNat == 0xD || c.toNat == 0x20

/-- The value of a character of the base64 alphabet. -/
def base64Value (c : Char) : Option Nat :=
  if 'A'.toNat ≤ c.toNat ∧ c.toNat ≤ 'Z'.toNat then some (c.toNat - 'A'.toNat)
  else if 'a'.toNat ≤ c.toNat ∧ c.toNat ≤ 'z'.toNat then some (c.toNat - 'a'.toNat + 26)
  else if '0'.toNat ≤ c.toNat ∧ c.toNat ≤ '9'.toNat then some (c.toNat - '0'.toNat + 52)
  else if c.toNat = '+'.toNat then some 62
  else if c.toNat = '/'.toNat then some 63
  else none

/-- The values of a string of base64 characters; `none` when a character is
not in the alphabet. -/
def base64Values : JSString → Option (List Nat)
  | [] => some []
  | c :: rest =>
    match base64Value c, base64Values rest with
    | some v, some vs => some (v :: vs)
    | _, _ => none

/-- The string without the one or two `=` it ends with, if any. -/
def removeTrailingEquals : JSString → JSString
  | [] => []
  | c :: rest =>
    if c = '=' ∧ (rest = [] ∨ rest = ['=']) then [] else c :: removeTrailingEquals rest

/-- The bytes of a sequence of 6-bit values: 24 bits give three bytes; of 12
or 18 bits left at the end the last 4 or 2 are discarded. -/
def sextetsToBytes : List Nat → List Nat
  | s1 :: s2 :: s3 :: s4 :: rest =>
    (s1 * 4 + s2 / 16) :: (s2 % 16 * 16 + s3 / 4) :: (s3 % 4 * 64 + s4) :: sextetsToBytes rest
  | [s1, s2, s3] => [s1 * 4 + s2 / 16, s2 % 16 * 16 + s3 / 4]
  | [s1, s2] => [s1 * 4 + s2 / 16]
  | [_] => []
  | [] => []

/-- `atob(data)`: the forgiving base64 decoding; `none` stands for the
`InvalidCharacterError` exception. -/
def atob (data : JSString) : Option (List Nat) :=
  let d1 := data.filter (fun c => !isAsciiWhitespace c)
  let d2 := if d1.length % 4 = 0 then removeTrailingEquals d1 else d1
  if d2.length % 4 = 1 then none
  else (base64Values d2).map sextetsToBytes

/-- The state of the UTF-8 decoder. -/
structure Utf8Decoder where
  codePoint : Nat
  bytesSeen : Nat
  bytesNeeded : Nat
  lower : Nat
  upper : Nat
  deriving DecidableEq, Repr

/-- The initial state of the UTF-8 decoder. -/
def Utf8Decoder.init : Utf8Decoder :=
  { codePoint := 0, bytesSeen := 0, bytesNeeded := 0, lower := 0x80, upper := 0xBF }

/-- The replacement character U+FFFD. -/
def replacementChar : Char := Char.ofNat 0xFFFD

/-- The handler of the UTF-8 decoder for one byte: the new state, the
characters emitted (U+FFFD for an error) and whether the byte is put back
into the stream. -/
def utf8Handler (st : Utf8Decoder) (byte : Nat) : Utf8Decoder × List Char × Bool :=
  if st.bytesNeeded = 0 then
    if byte ≤ 0x7F then (st, [Char.ofNat byte], false)
    else if 0xC2 ≤ byte ∧ byte ≤ 0xDF then
      ({ st with bytesNeeded := 1, codePoint := byte % 32 }, [], false)
    else if 0xE0 ≤ byte ∧ byte ≤ 0xEF then
      ({ st with lower := if byte = 0xE0 then 0xA0 else st.lower,
                 upper := if byte = 0xED then 0x9F else st.upper,
                 bytesNeeded := 2, codePoint := byte % 16 }, [], false)
    else if 0xF0 ≤ byte ∧ byte ≤ 0xF4 then
      ({ st with lower := if byte = 0xF0 then 0x90 else st.lower,
                 upper := if byte = 0xF4 then 0x8F else st.upper,
                 bytesNeeded := 3, codePoint := byte % 8 }, [], false)
    else (st, [replacementChar], false)
  else if ¬ (st.lower ≤ byte ∧ byte ≤ st.upper) then
    (Utf8Decoder.init, [replacementChar], true)
  else if st.bytesSeen + 1 ≠ st.bytesNeeded then
    ({ st with lower := 0x80, upper := 0xBF, codePoint := st.codePoint * 64 + byte % 64,
               bytesSeen := st.bytesSeen + 1 }, [], false)
  else
    (Utf8Decoder.init, [Char.ofNat (st.codePoint * 64 + byte % 64)], false)

/-- The UTF-8 decoder run over a byte stream, errors replaced by U+FFFD. -/
def utf8Decode : List Nat → Utf8Decoder → List Char
  | [], st => if st.bytesNeeded ≠ 0 then [replacementChar] else []
  | byte :: rest, st =>
    if (utf8Handler st byte).2.2 then
      (utf8Handler st byte).2.1 ++ (utf8Handler (utf8Handler st byte).1 byte).2.1
        ++ utf8Decode rest (utf8Handler (utf8Handler st byte).1 byte).1
    else
      (utf8Handler st byte).2.1 ++ utf8Decode rest (utf8Handler st byte).1

/-- `new TextDecoder().decode(bytes)`: UTF-8, not fatal, and a U+FEFF at the
start of the output is dropped (`ignoreBOM` is false). -/
def textDecoderDecode (bytes : List Nat) : JSString :=
  match utf8Decode bytes Utf8Decoder.init with
  | [] => []
  | c :: rest => if c.toNat = 0xFEFF then rest else c :: rest

/-! ## decodeBase64ToText (script.js lines 19-31) -/

/-- `decodeBase64ToText(b64)`: the exception of `atob` is caught and the
empty string returned; the bytes are the character codes of the binary
string. -/
def decodeBase64ToText (b64 : JSString) : JSString :=
  match atob b64 with
  | none => []
  | some bytes => textDecoderDecode bytes

/-! ## decodeURIComponent -/

/-- The value of a hexadecimal digit. -/
def hexValue (c : Char) : Option Nat :=
  if '0'.toNat ≤ c.toNat ∧ c.toNat ≤ '9'.toNat then some (c.toNat - '0'.toNat)
  else if 'A'.toNat ≤ c.toNat ∧ c.toNat ≤ 'F'.toNat then some (c.toNat - 'A'.toNat + 10)
  else if 'a'.toNat ≤ c.toNat ∧ c.toNat ≤ 'f'.toNat then some (c.toNat - 'a'.toNat + 10)
  else none

/-- The byte written as two hexadecimal digits. -/
def parseHexOctet (h1 h2 : Char) : Option Nat :=
  match hexValue h1, hexValue h2 with
  | some a, some b => some (16 * a + b)
  | _, _ => none

/-- Reads `n` escapes `%XX` at the start of the string: the bytes and the
rest of the string. -/
def readEscapes : Nat → JSString → Option (List Nat × JSString)
  | 0, s => some ([], s)
  | n + 1, c :: h1 :: h2 :: rest =>
    if c = '%' then
      match parseHexOctet h1 h2, readEscapes n rest with
      | some b, some (bs, rest2) => some (b :: bs, rest2)
      | _, _ => none
    else none
  | _ + 1, _ => none

/-- The code point of which the bytes (two to four) are the UTF-8 encoding,
if they are one. -/
def utf8CodePoint : List Nat → Option Char
  | [b1, b2] =>
    if 0xC2 ≤ b1 ∧ b1 ≤ 0xDF ∧ 0x80 ≤ b2 ∧ b2 ≤ 0xBF then
      some (Char.ofNat (b1 % 32 * 64 + b2 % 64))
    else none
  | [b1, b2, b3] =>
    if 0xE0 ≤ b1 ∧ b1 ≤ 0xEF ∧ (if b1 = 0xE0 then 0xA0 else 0x80) ≤ b2
        ∧ b2 ≤ (if b1 = 0xED then 0x9F else 0xBF) ∧ 0x80 ≤ b3 ∧ b3 ≤ 0xBF then
      some (Char.ofNat ((b1 % 16 * 64 + b2 % 64) * 64 + b3 % 64))
    else none
  | [b1, b2, b3, b4] =>
    if 0xF0 ≤ b1 ∧ b1 ≤ 0xF4 ∧ (if b1 = 0xF0 then 0x90 else 0x80) ≤ b2
        ∧ b2 ≤ (if b1 = 0xF4 then 0x8F else 0xBF) ∧ 0x80 ≤ b3 ∧ b3 ≤ 0xBF
        ∧ 0x80 ≤ b4 ∧ b4 ≤ 0xBF then
      some (Char.ofNat (((b1 % 8 * 64 + b2 % 64) * 64 + b3 % 64) * 64 + b4 % 64))
    else none
  | _ => none

/-- The number of leading 1 bits of a byte. -/
def leadingOnes (b : Nat) : Nat :=
  if b < 0x80 then 0 else if b < 0xC0 then 1 else if b < 0xE0 then 2
  else if b < 0xF0 then 3 else if b < 0xF8 then 4 else if b < 0xFC then 5
  else if b < 0xFE then 6 else if b < 0xFF then 7 else 8

/-- The loop of `decodeURIComponent`; `none` stands for the `URIError`
exception.  Every iteration consumes at least one character, so a fuel above
the length of the string is never used up. -/
def decodeURILoop : Nat → JSString → Option JSString
  | 0, _ => none
  | _ + 1, [] => some []
  | fuel + 1, c :: rest =>
    if c ≠ '%' then (decodeURILoop fuel rest).map (c :: ·)
    else
      match rest with
      | h1 :: h2 :: rest2 =>
        match parseHexOctet h1 h2 with
        | none => none
        | some b =>
          if leadingOnes b = 0 then (decodeURILoop fuel rest2).map (Char.ofNat b :: ·)
          else if leadingOnes b = 1 ∨ 4 < leadingOnes b then none
          else
            match readEscapes (leadingOnes b - 1) rest2 with
            | none => none
            | some (octets, rest3) =>
              match utf8CodePoint (b :: octets) with
              | none => none
              | some v => (decodeURILoop fuel rest3).map (v :: ·)
      | _ => none

/-- `decodeURIComponent(s)`; `none` stands for the `URIError` exception. -/
def decodeURIComponent (s : JSString) : Option JSString :=
  decodeURILoop (s.length + 1) s

/-! ## init, the text of a data URL (script.js lines 122-133) -/

/-- Lines 124-133: `csvText` for a URL that starts with `data:`; `none` stands
for an exception (`Invalid data URL`, or the one of `decodeURIComponent`),
which `init` reports as an error. -/
def csvTextOfDataUrl (url : JSString) : Option JSString :=
  match parseDataUrl url with
  | none => none
  | some parsed =>
    if parsed.isBase64 then some (decodeBase64ToText parsed.payload)
    else decodeURIComponent parsed.payload

/-! ## Reference encoders, in the words of the specification -/

/-- Reference: the UTF-8 bytes of a character. -/
def utf8EncodeChar (c : Char) : List Nat :=
  if c.toNat < 0x80 then [c.toNat]
  else if c.toNat < 0x800 then [0xC0 + c.toNat / 64, 0x80 + c.toNat % 64]
  else if c.toNat < 0x10000 then
    [0xE0 + c.toNat / 4096, 0x80 + c.toNat / 64 % 64, 0x80 + c.toNat % 64]
  else
    [0xF0 + c.toNat / 262144, 0x80 + c.toNat / 4096 % 64, 0x80 + c.toNat / 64 % 64,
      0x80 + c.toNat % 64]

/-- Reference: the UTF-8 bytes of a text. -/
def utf8Encode : JSString → List Nat
  | [] => []
  | c :: rest => utf8EncodeChar c ++ utf8Encode rest

/-- Reference: the base64 character of a 6-bit value. -/
def base64Char (v : Nat) : Char :=
  if v < 26 then Char.ofNat ('A'.toNat + v)
  else if v < 52 then Char.ofNat ('a'.toNat + (v - 26))
  else if v < 62 then Char.ofNat ('0'.toNat + (v - 52))
  else if v = 62 then '+'
  else '/'

/-- Reference: the base64 text of a byte sequence, with `=` padding. -/
def base64Encode : List Nat → JSString
  | b1 :: b2 :: b3 :: rest =>
    base64Char (b1 / 4) :: base64Char (b1 % 4 * 16 + b2 / 16)
      :: base64Char (b2 % 16 * 4 + b3 / 64) :: base64Char (b3 % 64) :: base64Encode rest
  | [b1, b2] =>
    [base64Char (b1 / 4), base64Char (b1 % 4 * 16 + b2 / 16), base64Char (b2 % 16 * 4), '=']
  | [b1] => [base64Char (b1 / 4), base64Char (b1 % 4 * 16), '=', '=']
  | [] => []

/-- Reference: an upper-case hexadecimal digit. -/
def hexDigit (v : Nat) : Char :=
  if v < 10 then Char.ofNat ('0'.toNat + v) else Char.ofNat ('A'.toNat + (v - 10))

/-- Reference: the characters `encodeURIComponent` leaves as they are. -/
def isUriUnescaped (c : Char) : Bool :=
  (decide ('A'.toNat ≤ c.toNat) && decide (c.toNat ≤ 'Z'.toNat))
    || (decide ('a'.toNat ≤ c.toNat) && decide (c.toNat ≤ 'z'.toNat))
    || (decide ('0'.toNat ≤ c.toNat) && decide (c.toNat ≤ '9'.toNat))
    || "-_.!~*'()".toList.contains c

/-- Reference: the percent-encoding of a byte sequence. -/
def percentEncodeBytes : List Nat → JSString
  | [] => []
  | b :: rest => '%' :: hexDigit (b / 16) :: hexDigit (b % 16) :: percentEncodeBytes rest

/-- Reference: the percent-encoding of a text, as `encodeURIComponent` writes
it. -/
def percentEncode : JSString → JSString
  | [] => []
  | c :: rest =>
    (if isUriUnescaped c then [c] else percentEncodeBytes (utf8EncodeChar c))
      ++ percentEncode rest

end SumOfSales

namespace SumOfSales

/-! ## Helper lemmas -/

theorem jsIndexOf_eq_none_iff (d : Char) (s : JSString) :
    jsIndexOf d s = none ↔ d ∉ s := by
  induction s with
  | nil => simp [jsIndexOf]
  | cons c cs ih =>
    by_cases h : c = d
    · simp [jsIndexOf, h]
    · have h2 : ¬ d = c := fun e => h e.symm
      simp [jsIndexOf, h, h2, ih]

theorem jsIndexOf_append_of_not_mem (d : Char) (m p : JSString) (h : d ∉ m) :
    jsIndexOf d (m ++ d :: p) = some m.length := by
  induction m with
  | nil => simp [jsIndexOf]
  | cons c cs ih =>
    have hc : ¬ c = d := fun e => h (by simp [e])
    have hcs : d ∉ cs := fun e => h (by simp [e])
    simp [jsIndexOf, hc, ih hcs]

theorem jsStartsWith_spec (s p : JSString) :
    jsStartsWith s p = true ↔ p <+: s := by
  induction p generalizing s with
  | nil => simp [jsStartsWith]
  | cons a t ih =>
    cases s with
    | nil => simp [jsStartsWith]
    | cons c cs =>
      simp only [jsStartsWith, Bool.and_eq_true, beq_iff_eq, ih, List.cons_prefix_cons]
      constructor
      · rintro ⟨h1, h2⟩
        exact ⟨h1.symm, h2⟩
      · rintro ⟨h1, h2⟩
        exact ⟨h1.symm, h2⟩

theorem jsSplit_ne_nil (d : Char) (s : JSString) : jsSplit d s ≠ [] := by
  cases s with
  | nil => simp [jsSplit]
  | cons c cs =>
    by_cases h : c = d
    · simp [jsSplit, h]
    · simp only [jsSplit, h, if_false]
      split <;> simp

theorem jsSplit_headD (d : Char) (s : JSString) :
    (jsSplit d s).headD [] = s.takeWhile (fun c => decide (c ≠ d)) := by
  induction s with
  | nil => simp [jsSplit]
  | cons c cs ih =>
    by_cases h : c = d
    · simp [jsSplit, h]
    · simp only [jsSplit, h, if_false]
      have hne := jsSplit_ne_nil d cs
      cases hs : jsSplit d cs with
      | nil => exact absurd hs hne
      | cons x t =>
        rw [hs] at ih
        simp at ih
        simp [h, ih]

/-! ## C1: the end-to-end scenario -/

set_option maxRecDepth 100000 in
set_option exponentiation.threshold 4000 in
/-- C1: for the decoded text of the scenario, `parseCsv` returns the header
`["Products","Sales"]` and the three data rows, the sales column resolves to
index 1, and the total formatted with two fraction digits is `"1234.56"`. -/
theorem C1_end_to_end :
    parseCsv "Products,Sales\nPhones,1000\nBooks,123.45\nNotebooks,111.11\n".toList
        = { headers := some ["Products".toList, "Sales".toList],
            rows := [["Phones".toList, "1000".toList], ["Books".toList, "123.45".toList],
                     ["Notebooks".toList, "111.11".toList]] }
      ∧ salesColumnIndex
          (parseCsv "Products,Sales\nPhones,1000\nBooks,123.45\nNotebooks,111.11\n".toList).headers
        = 1
      ∧ salesText "Products,Sales\nPhones,1000\nBooks,123.45\nNotebooks,111.11\n".toList
        = "1234.56".toList := by
  decide

/-! ## C2: a delimiter inside a quoted field -/

/-- C2: on the input `a,"b,c",d` the scanner removes the quotes and then
splits the whole row buffer on the comma, so the quoted field `b,c` comes out
as the two cells `b` and `c`: the row has four cells, not the three cells
`a`, `b,c`, `d` of the claim. -/
theorem C2_quoted_delimiter_is_split :
    tokenize ',' "a,\"b,c\",d".toList
        = [["a".toList, "b".toList, "c".toList, "d".toList]]
      ∧ tokenize ',' "a,\"b,c\",d".toList ≠ [["a".toList, "b,c".toList, "d".toList]]
      ∧ (parseCsv "a,\"b,c\",d".toList).headers
        = some ["a".toList, "b".toList, "c".toList, "d".toList] := by
  decide

/-! ## C3: the escaped quote -/

/-- C3: inside a quoted field a double quote followed by a double quote
appends one quote to the buffer, consumes both characters (the scan goes on
with the text after them) and leaves the scanner inside the quoted field; the
text `a,"b""c"` tokenizes to the one row `["a", "b\"c"]`. -/
theorem C3_escaped_quote (delimiter : Char) (rows : List (List JSString))
    (current rest : JSString) :
    scanStep delimiter '"' (some '"') { rows := rows, current := current, inQuotes := true }
        = ({ rows := rows, current := current ++ ['"'], inQuotes := true }, true)
      ∧ scan delimiter ('"' :: '"' :: rest) { rows := rows, current := current, inQuotes := true }
        = scan delimiter rest { rows := rows, current := current ++ ['"'], inQuotes := true }
      ∧ tokenize ',' "a,\"b\"\"c\"".toList = [["a".toList, "b\"c".toList]] := by
  refine ⟨?_, ?_, by decide⟩
  · simp [scanStep]
  · simp [scan, scanStep]

/-! ## C9, C10: parseDataUrl -/

/-- C9: `parseDataUrl` returns `null` exactly when the input does not start
with `data:` or contains no comma; on every other input it returns an
object. -/
theorem C9_parseDataUrl_null_iff (url : JSString) :
    (parseDataUrl url = none ↔ (¬ "data:".toList <+: url ∨ ',' ∉ url))
      ∧ ("data:".toList <+: url ∧ ',' ∈ url → (parseDataUrl url).isSome = true) := by
  have key : parseDataUrl url = none ↔ (¬ "data:".toList <+: url ∨ ',' ∉ url) := by
    rw [← jsStartsWith_spec]
    unfold parseDataUrl
    generalize jsStartsWith url "data:".toList = b
    cases b with
    | false => simp
    | true =>
      cases hi : jsIndexOf ',' url with
      | none =>
        have := (jsIndexOf_eq_none_iff ',' url).1 hi
        simp [this]
      | some k =>
        have hmem : ¬ (',' ∉ url) := by
          intro hn
          have := (jsIndexOf_eq_none_iff ',' url).2 hn
          rw [hi] at this
          cases this
        simpa using hmem
  refine ⟨key, ?_⟩
  rintro ⟨h1, h2⟩
  cases hr : parseDataUrl url with
  | none =>
    rcases key.1 hr with h | h
    · exact absurd h1 h
    · exact absurd h2 h
  | some r => rfl

/-- C9 at `data:text/csv,a`, where the prefix and the comma are there and an
object is returned, and at `data:text/csv`, where the comma is missing and the
result is `null`. -/
theorem C9_parseDataUrl_null_iff_witness :
    (parseDataUrl "data:text/csv,a".toList).isSome = true
      ∧ parseDataUrl "data:text/csv".toList = none :=
  ⟨(C9_parseDataUrl_null_iff "data:text/csv,a".toList).2
      ⟨(jsStartsWith_spec _ _).1 (by decide), by decide⟩,
   (C9_parseDataUrl_null_iff "data:text/csv".toList).1.2 (Or.inr (by decide))⟩

/-- C10: for a metadata string `m` without comma and any payload `p`,
`parseDataUrl("data:" + m + "," + p)` returns the payload `p` unchanged, as
mime the first semicolon-separated tag of `m`, or `text/plain` when that tag
is empty, and `isBase64` true exactly when one of the semicolon-separated tags
of `m` is `base64`. -/
theorem C10_parseDataUrl_fields (m p : JSString) (hm : ',' ∉ m) :
    parseDataUrl ("data:".toList ++ m ++ ',' :: p)
      = some { mime := if m.takeWhile (fun c => decide (c ≠ ';')) = [] then "text/plain".toList
                       else m.takeWhile (fun c => decide (c ≠ ';')),
               isBase64 := decide ("base64".toList ∈ jsSplit ';' m),
               payload := p } := by
  have hpre : jsStartsWith ("data:".toList ++ m ++ ',' :: p) "data:".toList = true := by
    simp [jsStartsWith]
  have hmem : ',' ∉ "data:".toList ++ m := by
    simp only [List.mem_append, not_or]
    exact ⟨by decide, hm⟩
  have hidx : jsIndexOf ',' ("data:".toList ++ m ++ ',' :: p)
      = some ("data:".toList ++ m).length :=
    jsIndexOf_append_of_not_mem ',' ("data:".toList ++ m) p hmem
  have hsub : jsSubstring ("data:".toList ++ m ++ ',' :: p) 5 ("data:".toList ++ m).length
      = m := by
    unfold jsSubstring
    rw [List.take_left]
    exact List.drop_left "data:".toList m
  have hpay : jsSubstringFrom ("data:".toList ++ m ++ ',' :: p)
      (("data:".toList ++ m).length + 1) = p := by
    have hlen : ("data:".toList ++ m).length + 1 = ("data:".toList ++ m ++ [',']).length := by
      simp
    have happ : "data:".toList ++ m ++ ',' :: p = ("data:".toList ++ m ++ [',']) ++ p := by
      simp
    rw [jsSubstringFrom, happ, hlen, List.drop_left]
  unfold parseDataUrl
  rw [hpre, hidx]
  simp only [Bool.not_true, Bool.false_eq_true, if_false, hsub, hpay, jsSplit_headD]
  simp

/-- C10 at the metadata `text/csv;base64` and a payload with a comma. -/
theorem C10_parseDataUrl_fields_witness :
    parseDataUrl ("data:".toList ++ "text/csv;base64".toList ++ ',' :: "UHJv,ZA==".toList)
      = some { mime := "text/csv".toList, isBase64 := true, payload := "UHJv,ZA==".toList } :=
  (C10_parseDataUrl_fields "text/csv;base64".toList "UHJv,ZA==".toList (by decide)).trans
    (by decide)

/-! ## C8: delimiter sniffing -/

theorem sniffDelimiter_cases (line : JSString) :
    (sniffDelimiter line = ','
        ∧ countMatches ';' line ≤ countMatches ',' line
        ∧ countMatches '\t' line ≤ countMatches ',' line)
      ∨ (sniffDelimiter line = ';'
        ∧ countMatches ',' line < countMatches ';' line
        ∧ countMatches '\t' line ≤ countMatches ';' line)
      ∨ (sniffDelimiter line = '\t'
        ∧ countMatches ',' line < countMatches '\t' line
        ∧ countMatches ';' line < countMatches '\t' line) := by
  simp only [sniffDelimiter, delimiters, List.foldl, sniffStep]
  generalize countMatches ',' line = a
  generalize countMatches ';' line = b
  generalize countMatches '\t' line = c
  by_cases h1 : a > 0 <;> by_cases h2 : b > a <;> by_cases h3 : c > b <;>
    by_cases h4 : c > a <;> by_cases h5 : b > 0 <;> by_cases h6 : c > 0 <;>
    simp [h1, h2, h3, h4, h5, h6] <;> omega

theorem firstLine_eq_takeWhile (text : JSString) :
    firstLine text = text.takeWhile (fun c => decide (c ≠ '\n')) :=
  jsSplit_headD '\n' text

theorem takeWhile_normalizeNewlines (text : JSString) :
    (normalizeNewlines text).takeWhile (fun c => decide (c ≠ '\n'))
      = text.takeWhile (fun c => decide (c ≠ '\r' ∧ c ≠ '\n')) := by
  unfold normalizeNewlines
  induction text using replaceCRLF.induct with
  | case1 => simp [replaceCRLF, replaceCR]
  | case2 c =>
    by_cases h1 : c = '\r'
    · simp [replaceCRLF, replaceCR, h1]
    · by_cases h2 : c = '\n'
      · simp [replaceCRLF, replaceCR, h2]
      · simp [replaceCRLF, replaceCR, h1, h2]
  | case3 c d rest h ih =>
    obtain ⟨hc, hd⟩ := h
    subst hc
    subst hd
    simp [replaceCRLF, replaceCR]
  | case4 c d rest h ih =>
    rw [replaceCRLF]
    simp only [h, if_false]
    by_cases h1 : c = '\r'
    · simp [replaceCR, h1]
    · by_cases h2 : c = '\n'
      · simp [replaceCR, h2]
      · have e1 : replaceCR (c :: replaceCRLF (d :: rest))
            = c :: replaceCR (replaceCRLF (d :: rest)) := by
          simp [replaceCR, h1]
        rw [e1, List.takeWhile_cons_of_pos (by simp [h2]),
          List.takeWhile_cons_of_pos (by simp [h1, h2]), ih]

theorem count_takeWhile_stripBOM (d : Char) (hd : d.toNat ≠ 0xFEFF) (s : JSString) :
    List.count d ((stripBOM s).takeWhile (fun c => decide (c ≠ '\n')))
      = List.count d (s.takeWhile (fun c => decide (c ≠ '\n'))) := by
  cases s with
  | nil => simp [stripBOM]
  | cons c rest =>
    by_cases h : c.toNat = 0xFEFF
    · have hcd : c ≠ d := fun e => hd (e ▸ h)
      have hcn : c ≠ '\n' := fun e => by rw [e] at h; revert h; decide
      simp [stripBOM, h, List.takeWhile_cons, hcn, List.count_cons, hcd]
    · simp [stripBOM, h]

/-- C8: the delimiter `parseCsv` tokenizes with is chosen from the first line
of the text (the normalized text up to its first line feed, which has the
same candidate counts as the input up to its first CR or LF).  It is one of
comma, semicolon, tab; no candidate occurs more often in that line, quotes
disregarded; a candidate listed earlier occurs strictly less often, so a tie
goes to the earlier one; with all counts zero it is the comma.  A line with 3
commas, 1 semicolon and no tab selects the comma. -/
theorem C8_delimiter_sniffing (text : JSString) :
    tokenizedRows text
        = tokenize (sniffDelimiter (firstLine (prepare text))) (prepare text)
      ∧ firstLine (prepare text) = (prepare text).takeWhile (fun c => decide (c ≠ '\n'))
      ∧ (∀ d ∈ delimiters, countMatches d (firstLine (prepare text))
          = countMatches d (text.takeWhile (fun c => decide (c ≠ '\r' ∧ c ≠ '\n'))))
      ∧ sniffDelimiter (firstLine (prepare text)) ∈ delimiters
      ∧ (∀ d ∈ delimiters, countMatches d (firstLine (prepare text))
          ≤ countMatches (sniffDelimiter (firstLine (prepare text))) (firstLine (prepare text)))
      ∧ (sniffDelimiter (firstLine (prepare text)) = ';' →
          countMatches ',' (firstLine (prepare text))
            < countMatches ';' (firstLine (prepare text)))
      ∧ (sniffDelimiter (firstLine (prepare text)) = '\t' →
          countMatches ',' (firstLine (prepare text))
              < countMatches '\t' (firstLine (prepare text))
            ∧ countMatches ';' (firstLine (prepare text))
              < countMatches '\t' (firstLine (prepare text)))
      ∧ (countMatches ',' (firstLine (prepare text)) = 0
          ∧ countMatches ';' (firstLine (prepare text)) = 0
          ∧ countMatches '\t' (firstLine (prepare text)) = 0 →
          sniffDelimiter (firstLine (prepare text)) = ',')
      ∧ countMatches ',' "a,b,c,d;e".toList = 3
      ∧ countMatches ';' "a,b,c,d;e".toList = 1
      ∧ countMatches '\t' "a,b,c,d;e".toList = 0
      ∧ sniffDelimiter "a,b,c,d;e".toList = ',' := by
  have hc := sniffDelimiter_cases (firstLine (prepare text))
  have hsc : ';' ≠ ',' := by decide
  have htc : '\t' ≠ ',' := by decide
  have hts : '\t' ≠ ';' := by decide
  refine ⟨rfl, firstLine_eq_takeWhile _, ?_, ?_, ?_, ?_, ?_, ?_, by decide, by decide,
    by decide, by decide⟩
  · intro d hd
    have hbom : d.toNat ≠ 0xFEFF := by
      simp only [delimiters, List.mem_cons, List.mem_singleton, List.not_mem_nil, or_false] at hd
      rcases hd with rfl | rfl | rfl <;> decide
    rw [firstLine_eq_takeWhile]
    unfold countMatches prepare
    rw [count_takeWhile_stripBOM d hbom, takeWhile_normalizeNewlines]
  · rcases hc with ⟨h, _, _⟩ | ⟨h, _, _⟩ | ⟨h, _, _⟩ <;> rw [h] <;> decide
  · intro d hd
    simp only [delimiters, List.mem_cons, List.mem_singleton, List.not_mem_nil, or_false] at hd
    rcases hc with ⟨h, h1, h2⟩ | ⟨h, h1, h2⟩ | ⟨h, h1, h2⟩ <;> rw [h] <;>
      rcases hd with rfl | rfl | rfl <;> omega
  · intro hs
    rcases hc with ⟨h, h1, h2⟩ | ⟨h, h1, h2⟩ | ⟨h, h1, h2⟩
    · exact absurd (h.symm.trans hs).symm hsc
    · exact h1
    · exact absurd (h.symm.trans hs) hts
  · intro hs
    rcases hc with ⟨h, h1, h2⟩ | ⟨h, h1, h2⟩ | ⟨h, h1, h2⟩
    · exact absurd (h.symm.trans hs).symm htc
    · exact absurd (h.symm.trans hs).symm hts
    · exact ⟨h1, h2⟩
  · rintro ⟨ha, hb, hcz⟩
    rcases hc with ⟨h, h1, h2⟩ | ⟨h, h1, h2⟩ | ⟨h, h1, h2⟩
    · exact h
    · omega
    · omega

/-- C8 at three texts: a first line with two semicolons and one comma, where
the semicolon is chosen; one with two tabs, one comma and one semicolon, where
the tab is chosen; one without any candidate, where the comma is chosen. -/
theorem C8_delimiter_sniffing_witness :
    countMatches ',' (firstLine (prepare "x;y;z,w\n1;2;3,4\n".toList))
        < countMatches ';' (firstLine (prepare "x;y;z,w\n1;2;3,4\n".toList))
      ∧ (countMatches ',' (firstLine (prepare "x\ty\tz,w;v\n1,2,3\n".toList))
            < countMatches '\t' (firstLine (prepare "x\ty\tz,w;v\n1,2,3\n".toList))
          ∧ countMatches ';' (firstLine (prepare "x\ty\tz,w;v\n1,2,3\n".toList))
            < countMatches '\t' (firstLine (prepare "x\ty\tz,w;v\n1,2,3\n".toList)))
      ∧ sniffDelimiter (firstLine (prepare "total\n1;2;3\n".toList)) = ',' :=
  ⟨(C8_delimiter_sniffing "x;y;z,w\n1;2;3,4\n".toList).2.2.2.2.2.1 (by decide),
   (C8_delimiter_sniffing "x\ty\tz,w;v\n1,2,3\n".toList).2.2.2.2.2.2.1 (by decide),
   (C8_delimiter_sniffing "total\n1;2;3\n".toList).2.2.2.2.2.2.2.1 (by decide)⟩

/-! ## C5: header classification -/

/-- C5: when the tokenization of a text is not empty, `parseCsv` returns the
first tokenized row as header and the remaining rows, in their order, as rows
exactly when every cell of the first row fails to parse as a number or is
white space only; otherwise the header is `null` and the rows are the whole
tokenized sequence.  The row `["Products","Sales"]` is a header row, the row
`["Phones","1000"]` is not. -/
theorem C5_header_classification (text : JSString) (first : List JSString)
    (rest : List (List JSString)) (h : tokenizedRows text = first :: rest) :
    (parseCsv text = { headers := some first, rows := rest } ↔
        ∀ cell ∈ first, (parseFloat cell).isNaN = true ∨ jsTrim cell = [])
      ∧ (¬ (∀ cell ∈ first, (parseFloat cell).isNaN = true ∨ jsTrim cell = []) →
          parseCsv text = { headers := none, rows := first :: rest })
      ∧ classifyHeader [["Products".toList, "Sales".toList], ["Phones".toList, "1000".toList]]
          = { headers := some ["Products".toList, "Sales".toList],
              rows := [["Phones".toList, "1000".toList]] }
      ∧ classifyHeader [["Phones".toList, "1000".toList], ["Books".toList, "123.45".toList]]
          = { headers := none,
              rows := [["Phones".toList, "1000".toList], ["Books".toList, "123.45".toList]] } := by
  have hall : first.all isHeaderCell = true ↔
      ∀ cell ∈ first, (parseFloat cell).isNaN = true ∨ jsTrim cell = [] := by
    simp [List.all_eq_true, isHeaderCell]
  refine ⟨?_, ?_, by decide, by decide⟩
  · unfold parseCsv
    rw [h]
    unfold classifyHeader
    by_cases hc : first.all isHeaderCell = true
    · simp only [hc, if_true, true_iff]
      exact hall.1 hc
    · have hn : ¬ ∀ cell ∈ first, (parseFloat cell).isNaN = true ∨ jsTrim cell = [] :=
        fun e => hc (hall.2 e)
      simp only [hc, if_false]
      constructor
      · intro e
        cases e
      · intro e
        exact absurd e hn
  · intro hn
    have hc : ¬ first.all isHeaderCell = true := fun e => hn (hall.1 e)
    unfold parseCsv
    rw [h]
    simp [classifyHeader, hc]

/-- C5 at the texts `Products,Sales\nPhones,1000\n`, where the first row is
the header, and `Phones,1000\nBooks,123.45\n`, where there is no header. -/
theorem C5_header_classification_witness :
    parseCsv "Products,Sales\nPhones,1000\n".toList
        = { headers := some ["Products".toList, "Sales".toList],
            rows := [["Phones".toList, "1000".toList]] }
      ∧ parseCsv "Phones,1000\nBooks,123.45\n".toList
        = { headers := none,
            rows := [["Phones".toList, "1000".toList], ["Books".toList, "123.45".toList]] } :=
  ⟨(C5_header_classification "Products,Sales\nPhones,1000\n".toList
      ["Products".toList, "Sales".toList] [["Phones".toList, "1000".toList]]
      (by decide)).1.2 (by decide),
   (C5_header_classification "Phones,1000\nBooks,123.45\n".toList
      ["Phones".toList, "1000".toList] [["Books".toList, "123.45".toList]]
      (by decide)).2.1 (by decide)⟩

/-! ## C6: column location -/

theorem jsFindIndex_eq_none (p : JSString → Bool) (l : List JSString)
    (h : ∀ x ∈ l, p x = false) : jsFindIndex p l = none := by
  induction l with
  | nil => rfl
  | cons a t ih =>
    have ha : p a = false := h a (by simp)
    have ht : ∀ x ∈ t, p x = false := fun x hx => h x (by simp [hx])
    simp [jsFindIndex, ha, ih ht]

theorem jsFindIndex_eq_some (p : JSString → Bool) (l : List JSString) (i : Nat)
    (x : JSString) (hx : l[i]? = some x) (hp : p x = true)
    (hfirst : ∀ j y, j < i → l[j]? = some y → p y = false) :
    jsFindIndex p l = some i := by
  induction l generalizing i with
  | nil => simp at hx
  | cons a t ih =>
    cases i with
    | zero =>
      simp at hx
      subst hx
      simp [jsFindIndex, hp]
    | succ n =>
      have ha : p a = false := hfirst 0 a (Nat.succ_pos n) (by simp)
      have hx2 : t[n]? = some x := by simpa using hx
      have hf2 : ∀ j y, j < n → t[j]? = some y → p y = false := by
        intro j y hj hy
        exact hfirst (j + 1) y (Nat.succ_lt_succ hj) (by simpa using hy)
      simp [jsFindIndex, ha, ih n hx2 hf2]

/-- C6: without a header the resolved column index is the default 1; with a
header none of whose cells lower-cases to `sales` it is 1 as well; with a
header that has such a cell it is the position of the first one. -/
theorem C6_column_location (hs : List JSString) :
    salesColumnIndex none = 1
      ∧ ((∀ h ∈ hs, jsToLowerCase h ≠ "sales".toList) → salesColumnIndex (some hs) = 1)
      ∧ (∀ (i : Nat) (h : JSString), hs[i]? = some h → jsToLowerCase h = "sales".toList →
          (∀ j g, j < i → hs[j]? = some g → jsToLowerCase g ≠ "sales".toList) →
          salesColumnIndex (some hs) = i) := by
  refine ⟨rfl, ?_, ?_⟩
  · intro hno
    have : jsFindIndex isSalesHeader hs = none :=
      jsFindIndex_eq_none _ _ (fun x hx => by simpa [isSalesHeader] using hno x hx)
    simp [salesColumnIndex, this]
  · intro i h hi hl hfirst
    have : jsFindIndex isSalesHeader hs = some i :=
      jsFindIndex_eq_some _ _ i h hi (by simpa [isSalesHeader] using hl)
        (fun j g hj hg => by simpa [isSalesHeader] using hfirst j g hj hg)
    simp [salesColumnIndex, this]

/-- C6 at the header `["Region","SALES","Sales"]`, where the first cell that
lower-cases to `sales` is at position 1, and at the header
`["Region","Total","Net"]`, where there is none and the index is the
default. -/
theorem C6_column_location_witness :
    salesColumnIndex (some ["Region".toList, "SALES".toList, "Sales".toList]) = 1
      ∧ salesColumnIndex (some ["Region".toList, "Total".toList, "Net".toList]) = 1 :=
  ⟨(C6_column_location ["Region".toList, "SALES".toList, "Sales".toList]).2.2 1
      "SALES".toList (by decide) (by decide)
      (fun j g hj hg => by
        have hj0 : j = 0 := by omega
        subst hj0
        have hg2 : g = "Region".toList := by simpa using hg.symm
        subst hg2
        decide),
   (C6_column_location ["Region".toList, "Total".toList, "Net".toList]).2.1 (by decide)⟩

/-! ## C7: aggregation -/

theorem parseFloat_undefined : parseFloat "undefined".toList = JSNumber.nan := by
  decide

theorem addRow_of_missing (idx : Nat) (total : JSNumber) (row : List JSString)
    (h : row[idx]? = none) : addRow idx total row = total := by
  have hc : cellText row idx = "undefined".toList := by
    unfold cellText
    rw [h]
  unfold addRow
  rw [hc, parseFloat_undefined]
  rfl

theorem addRow_of_nan (idx : Nat) (total : JSNumber) (row : List JSString) (cell : JSString)
    (h : row[idx]? = some cell) (hn : (parseFloat cell).isNaN = true) :
    addRow idx total row = total := by
  have hc : cellText row idx = cell := by
    unfold cellText
    rw [h]
  unfold addRow
  rw [hc, hn]
  rfl

theorem addRow_of_number (idx : Nat) (total : JSNumber) (row : List JSString)
    (cell : JSString) (h : row[idx]? = some cell) (hn : ¬ (parseFloat cell).isNaN = true) :
    addRow idx total row = total.add (parseFloat cell) := by
  have hc : cellText row idx = cell := by
    unfold cellText
    rw [h]
  have hf : (parseFloat cell).isNaN = false := by
    cases hb : (parseFloat cell).isNaN with
    | true => exact absurd hb hn
    | false => rfl
  unfold addRow
  rw [hc, hf]
  rfl

theorem foldl_addRow (idx : Nat) (rows : List (List JSString)) (acc : JSNumber) :
    rows.foldl (addRow idx) acc
      = (rows.filterMap (fun row =>
            (row[idx]?).bind (fun cell =>
              if (parseFloat cell).isNaN = true then none else some (parseFloat cell)))).foldl
          JSNumber.add acc := by
  induction rows generalizing acc with
  | nil => rfl
  | cons row t ih =>
    rw [List.foldl_cons, ih]
    cases hrow : row[idx]? with
    | none =>
      rw [addRow_of_missing idx acc row hrow]
      simp [List.filterMap_cons, hrow]
    | some cell =>
      by_cases hn : (parseFloat cell).isNaN = true
      · rw [addRow_of_nan idx acc row cell hrow hn]
        simp [List.filterMap_cons, hrow, hn]
      · rw [addRow_of_number idx acc row cell hrow hn]
        simp [List.filterMap_cons, hrow, hn]

set_option maxRecDepth 100000 in
set_option exponentiation.threshold 4000 in
/-- C7: for every list of rows and every column index the total is the sum,
in row order and starting from 0, of the parsed values of exactly those rows
whose cell at the index exists and parses as a number; a row that is too
short or whose cell does not parse leaves the total unchanged, and the total
is defined for every input.  The rows `[["a","x"],["b","5"]]` with index 1
give `"5.00"`. -/
theorem C7_aggregation_skips_bad_cells (rows : List (List JSString)) (idx : Nat) :
    totalSales rows idx
        = (rows.filterMap (fun row =>
              (row[idx]?).bind (fun cell =>
                if (parseFloat cell).isNaN = true then none else some (parseFloat cell)))).foldl
            JSNumber.add JSNumber.zero
      ∧ (∀ (total : JSNumber) (row : List JSString),
          (row[idx]? = none ∨ ∃ cell, row[idx]? = some cell ∧ (parseFloat cell).isNaN = true) →
          addRow idx total row = total)
      ∧ toFixed2 (totalSales [["a".toList, "x".toList], ["b".toList, "5".toList]] 1)
          = "5.00".toList := by
  refine ⟨foldl_addRow idx rows JSNumber.zero, ?_, by decide⟩
  intro total row h
  rcases h with h | ⟨cell, h, hn⟩
  · exact addRow_of_missing idx total row h
  · exact addRow_of_nan idx total row cell h hn

set_option maxRecDepth 100000 in
set_option exponentiation.threshold 4000 in
/-- C7 at a running total of 5 and index 1: the short row `["a"]` and the row
`["b","x"]` with an unparsable cell leave the total unchanged. -/
theorem C7_aggregation_skips_bad_cells_witness :
    addRow 1 (parseFloat "5".toList) ["a".toList] = parseFloat "5".toList
      ∧ addRow 1 (parseFloat "5".toList) ["b".toList, "x".toList] = parseFloat "5".toList :=
  ⟨(C7_aggregation_skips_bad_cells [["a".toList], ["b".toList, "x".toList]] 1).2.1
      (parseFloat "5".toList) ["a".toList] (Or.inl (by decide)),
   (C7_aggregation_skips_bad_cells [["a".toList], ["b".toList, "x".toList]] 1).2.1
      (parseFloat "5".toList) ["b".toList, "x".toList]
      (Or.inr ⟨"x".toList, by decide, by decide⟩)⟩

/-! ## C4: a newline inside a quoted field -/

theorem scan_cons_plain (d c : Char) (t : JSString) (st : ScanState) (hq : c ≠ '"')
    (hn : c = '\n' → st.inQuotes = true) :
    scan d (c :: t) st = scan d t { st with current := st.current ++ [c] } := by
  have hstep : ∀ next, scanStep d c next st
      = ({ st with current := st.current ++ [c] }, false) := by
    intro next
    unfold scanStep
    have hnl : ¬ (c = '\n' ∧ st.inQuotes = false) := by
      rintro ⟨h1, h2⟩
      rw [hn h1] at h2
      cases h2
    simp only [hq, false_and, if_false, hnl]
  cases t with
  | nil => simp only [scan, hstep]
  | cons e t2 => simp [scan, hstep]

theorem scan_append_plain (d : Char) (s rest : JSString) (st : ScanState)
    (h : ∀ c ∈ s, c ≠ '"' ∧ (c = '\n' → st.inQuotes = true)) :
    scan d (s ++ rest) st = scan d rest { st with current := st.current ++ s } := by
  induction s generalizing st with
  | nil => simp
  | cons c t ih =>
    have hc := h c (by simp)
    rw [List.cons_append, scan_cons_plain d c (t ++ rest) st hc.1 hc.2]
    rw [ih { st with current := st.current ++ [c] } (fun x hx => h x (by simp [hx]))]
    simp

theorem scan_open_quote (d : Char) (t : JSString) (st : ScanState)
    (h : st.inQuotes = false) :
    scan d ('"' :: t) st = scan d t { st with inQuotes := true } := by
  cases t with
  | nil => simp [scan, scanStep, h]
  | cons e t2 => simp [scan, scanStep, h]

theorem scan_close_quote (d c : Char) (t : JSString) (st : ScanState)
    (h : st.inQuotes = true) (hc : c ≠ '"') :
    scan d ('"' :: c :: t) st = scan d (c :: t) { st with inQuotes := false } := by
  have hc2 : ¬ '"' = c := fun e => hc e.symm
  simp [scan, scanStep, h, hc, hc2]

theorem jsSplit_of_not_mem (d : Char) (s : JSString) (h : d ∉ s) : jsSplit d s = [s] := by
  induction s with
  | nil => rfl
  | cons c t ih =>
    have hc : ¬ c = d := fun e => h (by simp [e])
    have ht : d ∉ t := fun e => h (by simp [e])
    simp [jsSplit, hc, ih ht]

theorem jsSplit_append_sep (d : Char) (a b : JSString) (h : d ∉ a) :
    jsSplit d (a ++ d :: b) = a :: jsSplit d b := by
  induction a with
  | nil => simp [jsSplit]
  | cons c t ih =>
    have hc : ¬ c = d := fun e => h (by simp [e])
    have ht : d ∉ t := fun e => h (by simp [e])
    simp [jsSplit, hc, ih ht]

theorem replaceCRLF_of_not_mem (s : JSString) (h : '\r' ∉ s) : replaceCRLF s = s := by
  induction s using replaceCRLF.induct with
  | case1 => rfl
  | case2 c => rfl
  | case3 c e rest hce ih => exact absurd (by simp [hce.1]) h
  | case4 c e rest hce ih =>
    rw [replaceCRLF]
    simp only [hce, if_false]
    rw [ih (fun m => h (by simp [m]))]

theorem replaceCR_of_not_mem (s : JSString) (h : '\r' ∉ s) : replaceCR s = s := by
  induction s with
  | nil => rfl
  | cons c t ih =>
    have hc : ¬ c = '\r' := fun e => h (by simp [e])
    have ht : '\r' ∉ t := fun e => h (by simp [e])
    have iht := ih ht
    unfold replaceCR at iht ⊢
    simp [hc, iht]

theorem sniffDelimiter_of_zero (line : JSString) (h1 : countMatches ';' line = 0)
    (h2 : countMatches '\t' line = 0) : sniffDelimiter line = ',' := by
  rcases sniffDelimiter_cases line with ⟨h, _, _⟩ | ⟨_, h, _⟩ | ⟨_, _, h⟩
  · exact h
  · omega
  · omega

theorem tokenize_quoted_newline (x y z : JSString)
    (h : ∀ c ∈ x ++ y ++ z, c ≠ '"' ∧ c ≠ ',' ∧ c ≠ '\n') :
    tokenize ',' ('"' :: (x ++ '\n' :: (y ++ '"' :: ',' :: z))) = [[x ++ '\n' :: y, z]] := by
  have hx : ∀ c ∈ x, c ≠ '"' ∧ c ≠ ',' ∧ c ≠ '\n' := fun c hc => h c (by simp [hc])
  have hy : ∀ c ∈ y, c ≠ '"' ∧ c ≠ ',' ∧ c ≠ '\n' := fun c hc => h c (by simp [hc])
  have hz : ∀ c ∈ z, c ≠ '"' ∧ c ≠ ',' ∧ c ≠ '\n' := fun c hc => h c (by simp [hc])
  have hin : ∀ c ∈ x ++ '\n' :: y, c ≠ '"' ∧ c ≠ ',' := by
    intro c hc
    simp only [List.mem_append, List.mem_cons] at hc
    rcases hc with hc | hc | hc
    · exact ⟨(hx c hc).1, (hx c hc).2.1⟩
    · subst hc
      exact ⟨by decide, by decide⟩
    · exact ⟨(hy c hc).1, (hy c hc).2.1⟩
  have htext : '"' :: (x ++ '\n' :: (y ++ '"' :: ',' :: z))
      = '"' :: ((x ++ '\n' :: y) ++ ('"' :: ',' :: z)) := by simp
  have hcomma : ',' ∉ x ++ '\n' :: y := fun hm => (hin ',' hm).2 rfl
  have hcz : ',' ∉ z := fun hm => (hz ',' hm).2.1 rfl
  unfold tokenize
  rw [htext, scan_open_quote ',' _ ScanState.init rfl,
    scan_append_plain ',' (x ++ '\n' :: y) ('"' :: ',' :: z) _
      (fun c hc => ⟨(hin c hc).1, fun _ => rfl⟩),
    scan_close_quote ',' ',' z _ rfl (by decide)]
  have hlast := scan_append_plain ',' (',' :: z) []
    { rows := [], current := [] ++ (x ++ '\n' :: y), inQuotes := false }
    (by
      intro c hc
      simp only [List.mem_cons] at hc
      rcases hc with hc | hc
      · subst hc
        exact ⟨by decide, fun e => absurd e (by decide)⟩
      · exact ⟨(hz c hc).1, fun e => absurd e (hz c hc).2.2⟩)
  rw [List.append_nil] at hlast
  simp only [ScanState.init] at hlast ⊢
  rw [hlast]
  simp only [scan, flush, List.nil_append]
  rw [if_pos (by simp), jsSplit_append_sep ',' _ z hcomma, jsSplit_of_not_mem ',' z hcz]

theorem firstLine_quoted_newline (x rest : JSString) (hx : '\n' ∉ x) :
    firstLine ('"' :: (x ++ '\n' :: rest)) = '"' :: x := by
  rw [firstLine_eq_takeWhile, List.takeWhile_cons_of_pos (by decide)]
  congr 1
  induction x with
  | nil => simp
  | cons c t ih =>
    have hc : c ≠ '\n' := fun e => hx (by simp [e])
    have ht : '\n' ∉ t := fun e => hx (by simp [e])
    rw [List.cons_append, List.takeWhile_cons_of_pos (by simp [hc]), ih ht]

/-- C4: a line feed between an opening and a closing double quote is kept in
the cell and does not close the row.  For `x`, `y`, `z` free of quotes, commas and line feeds the text
`"x\ny",z` tokenizes with the comma to the one row `["x\ny","z"]`; when they
are also free of the other candidate delimiters and of CR, the comma is the
sniffed delimiter and that row is the whole tokenization of `parseCsv`. -/
theorem C4_quoted_newline (x y z : JSString)
    (h : ∀ c ∈ x ++ y ++ z, c ≠ '"' ∧ c ≠ ',' ∧ c ≠ '\n') :
    tokenize ',' ('"' :: (x ++ '\n' :: (y ++ '"' :: ',' :: z))) = [[x ++ '\n' :: y, z]]
      ∧ ((∀ c ∈ x ++ y ++ z, c ≠ ';' ∧ c ≠ '\t' ∧ c ≠ '\r') →
          tokenizedRows ('"' :: (x ++ '\n' :: (y ++ '"' :: ',' :: z)))
            = [[x ++ '\n' :: y, z]]) := by
  refine ⟨tokenize_quoted_newline x y z h, ?_⟩
  intro h2
  have hcr : '\r' ∉ '"' :: (x ++ '\n' :: (y ++ '"' :: ',' :: z)) := by
    intro hm
    simp only [List.mem_cons, List.mem_append] at hm
    have hno : ∀ c ∈ x ++ y ++ z, c ≠ '\r' := fun c hc => (h2 c hc).2.2
    rcases hm with hm | hm | hm | hm | hm | hm | hm
    · exact absurd hm (by decide)
    · exact hno _ (by simp [hm]) rfl
    · exact absurd hm (by decide)
    · exact hno _ (by simp [hm]) rfl
    · exact absurd hm (by decide)
    · exact absurd hm (by decide)
    · exact hno _ (by simp [hm]) rfl
  have hprep : prepare ('"' :: (x ++ '\n' :: (y ++ '"' :: ',' :: z)))
      = '"' :: (x ++ '\n' :: (y ++ '"' :: ',' :: z)) := by
    unfold prepare normalizeNewlines
    rw [replaceCRLF_of_not_mem _ hcr, replaceCR_of_not_mem _ hcr]
    simp [stripBOM]
  have hxn : '\n' ∉ x := fun hm => (h '\n' (by simp [hm])).2.2 rfl
  have hline : firstLine ('"' :: (x ++ '\n' :: (y ++ '"' :: ',' :: z))) = '"' :: x :=
    firstLine_quoted_newline x _ hxn
  have hsemi : countMatches ';' ('"' :: x) = 0 := by
    unfold countMatches
    rw [List.count_eq_zero]
    intro hm
    simp only [List.mem_cons] at hm
    rcases hm with hm | hm
    · exact absurd hm (by decide)
    · exact (h2 ';' (by simp [hm])).1 rfl
  have htab : countMatches '\t' ('"' :: x) = 0 := by
    unfold countMatches
    rw [List.count_eq_zero]
    intro hm
    simp only [List.mem_cons] at hm
    rcases hm with hm | hm
    · exact absurd hm (by decide)
    · exact (h2 '\t' (by simp [hm])).2.1 rfl
  unfold tokenizedRows
  rw [hprep, hline, sniffDelimiter_of_zero _ hsemi htab]
  exact tokenize_quoted_newline x y z h

/-- C4 at `x = "ab"`, `y = "cd"`, `z = "ef"`: the text `"ab\ncd",ef` gives the
one row `["ab\ncd","ef"]`, with the comma given and with the comma sniffed. -/
theorem C4_quoted_newline_witness :
    tokenize ',' "\"ab\ncd\",ef".toList = [["ab\ncd".toList, "ef".toList]]
      ∧ tokenizedRows "\"ab\ncd\",ef".toList = [["ab\ncd".toList, "ef".toList]] :=
  ⟨(C4_quoted_newline "ab".toList "cd".toList "ef".toList (by decide)).1,
   (C4_quoted_newline "ab".toList "cd".toList "ef".toList (by decide)).2 (by decide)⟩

/-! ## C13, C15, C16: normalization, empty tables, cells -/

theorem normalizeNewlines_eq_replaceLineEndings (t : JSString) :
    normalizeNewlines t = replaceLineEndings t := by
  unfold normalizeNewlines
  induction t using replaceCRLF.induct with
  | case1 => rfl
  | case2 c =>
    by_cases hc : c = '\r'
    · simp [replaceCRLF, replaceCR, replaceLineEndings, hc]
    · simp [replaceCRLF, replaceCR, replaceLineEndings, hc]
  | case3 c d rest h ih =>
    rw [replaceCRLF, replaceLineEndings]
    simp only [h, and_self, if_true]
    rw [← ih]
    simp [replaceCR]
  | case4 c d rest h ih =>
    rw [replaceCRLF, replaceLineEndings]
    simp only [h, if_false]
    rw [← ih]
    by_cases hc : c = '\r'
    · simp [replaceCR, hc]
    · simp [replaceCR, hc]

theorem not_mem_replaceCR (s : JSString) : '\r' ∉ replaceCR s := by
  unfold replaceCR
  intro h
  rw [List.mem_map] at h
  obtain ⟨c, _, hc⟩ := h
  by_cases h1 : c = '\r'
  · simp [h1] at hc
  · simp only [h1, if_false] at hc

theorem not_mem_normalizeNewlines (s : JSString) : '\r' ∉ normalizeNewlines s :=
  not_mem_replaceCR _

theorem normalizeNewlines_idem (s : JSString) :
    normalizeNewlines (normalizeNewlines s) = normalizeNewlines s := by
  have h := not_mem_normalizeNewlines s
  show replaceCR (replaceCRLF (normalizeNewlines s)) = normalizeNewlines s
  rw [replaceCRLF_of_not_mem _ h, replaceCR_of_not_mem _ h]

theorem prepare_normalizeNewlines (s : JSString) :
    prepare (normalizeNewlines s) = prepare s := by
  unfold prepare
  rw [normalizeNewlines_idem]

theorem replaceCRLF_cons_of_ne (c : Char) (s : JSString) (h : c ≠ '\r') :
    replaceCRLF (c :: s) = c :: replaceCRLF s := by
  cases s with
  | nil => simp [replaceCRLF]
  | cons d rest => simp [replaceCRLF, h]

theorem normalizeNewlines_cons_of_ne (c : Char) (s : JSString) (h : c ≠ '\r') :
    normalizeNewlines (c :: s) = c :: normalizeNewlines s := by
  unfold normalizeNewlines
  rw [replaceCRLF_cons_of_ne c s h]
  simp [replaceCR, h]

theorem stripBOM_of_head (s : JSString) (h : s.head? ≠ some (Char.ofNat 0xFEFF)) :
    stripBOM s = s := by
  cases s with
  | nil => rfl
  | cons c rest =>
    have hc : c.toNat ≠ 0xFEFF := by
      intro e
      apply h
      simp only [List.head?_cons, Option.some.injEq]
      rw [← e, Char.ofNat_toNat]
    simp [stripBOM, hc]

theorem head?_normalizeNewlines_ne_bom (s : JSString)
    (h : s.head? ≠ some (Char.ofNat 0xFEFF)) :
    (normalizeNewlines s).head? ≠ some (Char.ofNat 0xFEFF) := by
  cases s with
  | nil => simp [normalizeNewlines, replaceCRLF, replaceCR]
  | cons c rest =>
    by_cases hc : c = '\r'
    · subst hc
      rw [normalizeNewlines_eq_replaceLineEndings]
      cases rest with
      | nil => simp [replaceLineEndings]
      | cons d r2 =>
        rw [replaceLineEndings]
        by_cases hd : d = '\n'
        · simp [hd]
        · simp [hd]
    · rw [normalizeNewlines_cons_of_ne c rest hc]
      simpa using h

theorem prepare_bom_cons (t : JSString) (h : t.head? ≠ some (Char.ofNat 0xFEFF)) :
    prepare (Char.ofNat 0xFEFF :: t) = prepare t := by
  unfold prepare
  rw [normalizeNewlines_cons_of_ne _ t (by decide)]
  rw [stripBOM_of_head _ (head?_normalizeNewlines_ne_bom t h)]
  simp [stripBOM]

theorem scan_invariant (d : Char) (I : ScanState → Prop) (s : JSString)
    (hstep : ∀ c ∈ s, ∀ next st, I st → I (scanStep d c next st).1)
    (st : ScanState) (h : I st) : I (scan d s st) := by
  induction s, st using scan.induct d with
  | case1 st => simpa [scan] using h
  | case2 c st =>
    rw [scan]
    exact hstep c (by simp) none st h
  | case3 c e rest st hskip ih =>
    rw [scan]
    simp only [hskip, if_true]
    exact ih (fun x hx => hstep x (by simp [hx])) (hstep c (by simp) (some e) st h)
  | case4 c e rest st hskip ih =>
    rw [scan]
    simp only [hskip, if_false]
    exact ih (fun x hx => hstep x (by simp [hx])) (hstep c (by simp) (some e) st h)

theorem scanStep_rows (d c : Char) (next : Option Char) (st : ScanState) :
    (scanStep d c next st).1.rows = st.rows
      ∨ (scanStep d c next st).1.rows = st.rows ++ [jsSplit d st.current] := by
  unfold scanStep
  split_ifs <;> simp

theorem scanStep_current (d c : Char) (next : Option Char) (st : ScanState) :
    (scanStep d c next st).1.current = st.current
      ∨ (scanStep d c next st).1.current = []
      ∨ (scanStep d c next st).1.current = st.current ++ [c] := by
  unfold scanStep
  split_ifs <;> simp

theorem tokenize_rows_split (d : Char) (text : JSString) :
    ∀ row ∈ tokenize d text, ∃ buf, row = jsSplit d buf := by
  have hscan : ∀ row ∈ (scan d text ScanState.init).rows, ∃ buf, row = jsSplit d buf := by
    apply scan_invariant d (fun st => ∀ row ∈ st.rows, ∃ buf, row = jsSplit d buf) text
    · intro c _ next st hI row hrow
      rcases scanStep_rows d c next st with h | h
      · rw [h] at hrow
        exact hI row hrow
      · rw [h, List.mem_append, List.mem_singleton] at hrow
        rcases hrow with hrow | hrow
        · exact hI row hrow
        · exact ⟨st.current, hrow⟩
    · intro row hrow
      simp [ScanState.init] at hrow
  intro row hrow
  unfold tokenize flush at hrow
  split_ifs at hrow
  · rw [List.mem_append, List.mem_singleton] at hrow
    rcases hrow with hrow | hrow
    · exact hscan row hrow
    · exact ⟨_, hrow⟩
  · exact hscan row hrow

theorem jsSplit_not_mem (d : Char) (s : JSString) : ∀ cell ∈ jsSplit d s, d ∉ cell := by
  induction s with
  | nil => simp [jsSplit]
  | cons c t ih =>
    by_cases h : c = d
    · simp only [jsSplit, h, if_true, List.mem_cons]
      rintro cell (hc | hc)
      · simp [hc]
      · exact ih cell hc
    · simp only [jsSplit, h, if_false]
      cases hs : jsSplit d t with
      | nil => exact absurd hs (jsSplit_ne_nil d t)
      | cons x xs =>
        rw [hs] at ih
        simp only [List.mem_cons]
        rintro cell (hc | hc)
        · subst hc
          intro hm
          simp only [List.mem_cons] at hm
          rcases hm with hm | hm
          · exact h hm.symm
          · exact ih x (by simp) hm
        · exact ih cell (by simp [hc])

theorem jsSplit_forall (P : Char → Prop) (d : Char) (s : JSString) (h : ∀ c ∈ s, P c) :
    ∀ cell ∈ jsSplit d s, ∀ c ∈ cell, P c := by
  induction s with
  | nil => simp [jsSplit]
  | cons a t ih =>
    have iht := ih (fun c hc => h c (by simp [hc]))
    by_cases hd : a = d
    · simp only [jsSplit, hd, if_true, List.mem_cons]
      rintro cell (hc | hc)
      · simp [hc]
      · exact iht cell hc
    · simp only [jsSplit, hd, if_false]
      cases hs : jsSplit d t with
      | nil => exact absurd hs (jsSplit_ne_nil d t)
      | cons x xs =>
        rw [hs] at iht
        simp only [List.mem_cons]
        rintro cell (hc | hc)
        · subst hc
          intro c hm
          simp only [List.mem_cons] at hm
          rcases hm with hm | hm
          · exact hm ▸ h a (by simp)
          · exact iht x (by simp) c hm
        · exact iht cell (by simp [hc])

theorem tokenize_forall (P : Char → Prop) (d : Char) (text : JSString)
    (h : ∀ c ∈ text, P c) :
    ∀ row ∈ tokenize d text, ∀ cell ∈ row, ∀ c ∈ cell, P c := by
  have hscan : (∀ row ∈ (scan d text ScanState.init).rows, ∀ cell ∈ row, ∀ c ∈ cell, P c)
      ∧ (∀ c ∈ (scan d text ScanState.init).current, P c) := by
    apply scan_invariant d (fun st => (∀ row ∈ st.rows, ∀ cell ∈ row, ∀ c ∈ cell, P c)
      ∧ (∀ c ∈ st.current, P c)) text
    · intro c hc next st hI
      constructor
      · intro row hrow
        rcases scanStep_rows d c next st with e | e
        · rw [e] at hrow
          exact hI.1 row hrow
        · rw [e, List.mem_append, List.mem_singleton] at hrow
          rcases hrow with hrow | hrow
          · exact hI.1 row hrow
          · rw [hrow]
            exact jsSplit_forall P d _ hI.2
      · intro x hx
        rcases scanStep_current d c next st with e | e | e
        · rw [e] at hx
          exact hI.2 x hx
        · rw [e] at hx
          simp at hx
        · rw [e, List.mem_append, List.mem_singleton] at hx
          rcases hx with hx | hx
          · exact hI.2 x hx
          · exact hx ▸ h c hc
    · simp [ScanState.init]
  intro row hrow
  unfold tokenize flush at hrow
  split_ifs at hrow
  · rw [List.mem_append, List.mem_singleton] at hrow
    rcases hrow with hrow | hrow
    · exact hscan.1 row hrow
    · rw [hrow]
      exact jsSplit_forall P d _ hscan.2
  · exact hscan.1 row hrow

theorem classifyHeader_toList (rows : List (List JSString)) :
    (classifyHeader rows).headers.toList ++ (classifyHeader rows).rows = rows := by
  cases rows with
  | nil => rfl
  | cons first rest =>
    unfold classifyHeader
    by_cases h : first.all isHeaderCell = true
    · simp [h]
    · simp [h]

theorem parseCsv_toList (text : JSString) :
    (parseCsv text).headers.toList ++ (parseCsv text).rows = tokenizedRows text :=
  classifyHeader_toList _

theorem mem_tokenizedRows_of_header (text : JSString) (hs : List JSString)
    (h : (parseCsv text).headers = some hs) : hs ∈ tokenizedRows text := by
  rw [← parseCsv_toList, h]
  simp

theorem mem_tokenizedRows_of_row (text : JSString) (row : List JSString)
    (h : row ∈ (parseCsv text).rows) : row ∈ tokenizedRows text := by
  rw [← parseCsv_toList]
  simp [h]

theorem not_mem_prepare (text : JSString) : '\r' ∉ prepare text := by
  unfold prepare
  have h := not_mem_normalizeNewlines text
  cases hn : normalizeNewlines text with
  | nil => simp [stripBOM]
  | cons c rest =>
    rw [hn] at h
    by_cases hb : c.toNat = 0xFEFF
    · simp only [stripBOM, hb, if_true]
      exact fun m => h (by simp [m])
    · simp only [stripBOM, hb, if_false]
      exact h

theorem mem_replaceCRLF (c : Char) (s : JSString) (h : c ∈ replaceCRLF s) : c ∈ s := by
  induction s using replaceCRLF.induct with
  | case1 => simp [replaceCRLF] at h
  | case2 a => simpa [replaceCRLF] using h
  | case3 a b rest hab ih =>
    rw [replaceCRLF] at h
    simp only [hab, and_self, if_true, List.mem_cons] at h
    rcases h with h | h
    · simp [h, hab.2]
    · simp [ih h]
  | case4 a b rest hab ih =>
    rw [replaceCRLF] at h
    simp only [hab, if_false, List.mem_cons] at h
    rcases h with h | h
    · simp [h]
    · have := ih h
      simp only [List.mem_cons] at this
      simp [this]

theorem mem_normalizeNewlines (c : Char) (s : JSString) (h : c ∈ normalizeNewlines s) :
    c ∈ s ∨ c = '\n' := by
  unfold normalizeNewlines replaceCR at h
  rw [List.mem_map] at h
  obtain ⟨a, ha, hc⟩ := h
  by_cases h1 : a = '\r'
  · simp only [h1, if_true] at hc
    exact Or.inr hc.symm
  · simp only [h1, if_false] at hc
    exact Or.inl (hc ▸ mem_replaceCRLF a s ha)

theorem totalSales_of_all_skipped (rows : List (List JSString)) (idx : Nat)
    (h : ∀ row ∈ rows, row[idx]? = none
      ∨ ∃ cell, row[idx]? = some cell ∧ (parseFloat cell).isNaN = true) :
    totalSales rows idx = JSNumber.zero := by
  unfold totalSales
  generalize JSNumber.zero = acc
  induction rows generalizing acc with
  | nil => rfl
  | cons row t ih =>
    rw [List.foldl_cons]
    have hrow : addRow idx acc row = acc := by
      rcases h row (by simp) with h1 | ⟨cell, h1, h2⟩
      · exact addRow_of_missing idx acc row h1
      · exact addRow_of_nan idx acc row cell h1 h2
    rw [hrow]
    exact ih (fun r hr => h r (by simp [hr])) acc

set_option maxRecDepth 100000 in
set_option exponentiation.threshold 4000 in
theorem toFixed2_zero : toFixed2 JSNumber.zero = "0.00".toList := by
  decide

set_option maxRecDepth 100000 in
set_option exponentiation.threshold 4000 in
/-- C15: `parseCsv("")` returns no header and no rows, and for every table in
which no row has a cell at the column index that parses as a number, the
table without rows included, the total is 0 and is shown as `"0.00"`; the
total is defined for every table. -/
theorem C15_empty_and_all_skipped (rows : List (List JSString)) (idx : Nat) :
    parseCsv [] = { headers := none, rows := [] }
      ∧ salesText [] = "0.00".toList
      ∧ toFixed2 (totalSales [] idx) = "0.00".toList
      ∧ ((∀ row ∈ rows, row[idx]? = none
            ∨ ∃ cell, row[idx]? = some cell ∧ (parseFloat cell).isNaN = true) →
          totalSales rows idx = JSNumber.zero
            ∧ toFixed2 (totalSales rows idx) = "0.00".toList) := by
  refine ⟨by decide, by decide, toFixed2_zero, ?_⟩
  intro h
  rw [totalSales_of_all_skipped rows idx h]
  exact ⟨rfl, toFixed2_zero⟩

set_option maxRecDepth 100000 in
set_option exponentiation.threshold 4000 in
/-- C15 at the rows `[["a"],["b","x"],["c",""]]` and index 1: no cell parses
and the total is shown as `"0.00"`. -/
theorem C15_empty_and_all_skipped_witness :
    toFixed2 (totalSales [["a".toList], ["b".toList, "x".toList], ["c".toList, []]] 1)
      = "0.00".toList :=
  ((C15_empty_and_all_skipped [["a".toList], ["b".toList, "x".toList], ["c".toList, []]]
    1).2.2.2 (by decide)).2

/-- C16: for every input text, no cell of the header or of a row returned by
`parseCsv` contains the sniffed delimiter, every returned row and the header
have at least one cell, and each of them is the split of a row buffer on the
delimiter. -/
theorem C16_cells_without_delimiter (text : JSString) :
    (∀ hs, (parseCsv text).headers = some hs →
        hs ≠ [] ∧ (∀ cell ∈ hs, sniffDelimiter (firstLine (prepare text)) ∉ cell)
          ∧ ∃ buf, hs = jsSplit (sniffDelimiter (firstLine (prepare text))) buf)
      ∧ (∀ row ∈ (parseCsv text).rows,
        row ≠ [] ∧ (∀ cell ∈ row, sniffDelimiter (firstLine (prepare text)) ∉ cell)
          ∧ ∃ buf, row = jsSplit (sniffDelimiter (firstLine (prepare text))) buf) := by
  have key : ∀ row ∈ tokenizedRows text,
      row ≠ [] ∧ (∀ cell ∈ row, sniffDelimiter (firstLine (prepare text)) ∉ cell)
        ∧ ∃ buf, row = jsSplit (sniffDelimiter (firstLine (prepare text))) buf := by
    intro row hrow
    obtain ⟨buf, hbuf⟩ := tokenize_rows_split _ _ row hrow
    refine ⟨?_, ?_, buf, hbuf⟩
    · rw [hbuf]
      exact jsSplit_ne_nil _ _
    · rw [hbuf]
      exact jsSplit_not_mem _ _
  exact ⟨fun hs h => key hs (mem_tokenizedRows_of_header text hs h),
    fun row h => key row (mem_tokenizedRows_of_row text row h)⟩

/-- C16 at the text `a;b,c;d\n1;2;3\n`: the sniffed delimiter is the semicolon
and the header `["a","b,c","d"]` has three cells without it. -/
theorem C16_cells_without_delimiter_witness :
    ["a".toList, "b,c".toList, "d".toList] ≠ []
      ∧ (∀ cell ∈ ["a".toList, "b,c".toList, "d".toList],
          sniffDelimiter (firstLine (prepare "a;b,c;d\n1;2;3\n".toList)) ∉ cell)
      ∧ ∃ buf, ["a".toList, "b,c".toList, "d".toList]
          = jsSplit (sniffDelimiter (firstLine (prepare "a;b,c;d\n1;2;3\n".toList))) buf :=
  (C16_cells_without_delimiter "a;b,c;d\n1;2;3\n".toList).1
    ["a".toList, "b,c".toList, "d".toList] (by decide)

/-- C13: `parseCsv` gives the same result on a text and on the text with every
CRLF and every lone CR replaced by one LF; for a text that does not start with
U+FEFF it gives the same result with U+FEFF put in front; and no cell it
returns contains a CR. -/
theorem C13_input_normalization (t : JSString) :
    parseCsv t = parseCsv (replaceLineEndings t)
      ∧ (t.head? ≠ some (Char.ofNat 0xFEFF) → parseCsv (Char.ofNat 0xFEFF :: t) = parseCsv t)
      ∧ (∀ hs, (parseCsv t).headers = some hs → ∀ cell ∈ hs, '\r' ∉ cell)
      ∧ (∀ row ∈ (parseCsv t).rows, ∀ cell ∈ row, '\r' ∉ cell) := by
  have key : ∀ row ∈ tokenizedRows t, ∀ cell ∈ row, '\r' ∉ cell := by
    intro row hrow cell hcell hm
    have hP := tokenize_forall (fun c => c ≠ '\r') _ (prepare t)
      (fun c hc e => not_mem_prepare t (e ▸ hc)) row hrow cell hcell _ hm
    exact hP rfl
  refine ⟨?_, ?_, ?_, ?_⟩
  · rw [← normalizeNewlines_eq_replaceLineEndings]
    unfold parseCsv tokenizedRows
    rw [prepare_normalizeNewlines]
  · intro h
    unfold parseCsv tokenizedRows
    rw [prepare_bom_cons t h]
  · exact fun hs h => key hs (mem_tokenizedRows_of_header t hs h)
  · exact fun row h => key row (mem_tokenizedRows_of_row t row h)

/-- C13 at the text `a,b\r\n1,2\r`: with U+FEFF in front the result is the
same. -/
theorem C13_input_normalization_witness :
    parseCsv (Char.ofNat 0xFEFF :: "a,b\r\n1,2\r".toList) = parseCsv "a,b\r\n1,2\r".toList :=
  (C13_input_normalization "a,b\r\n1,2\r".toList).2.1 (by decide)

/-! ## C18, C17: unterminated quote, naive reference -/

theorem prepare_quote_cons (rest : JSString) :
    prepare ('"' :: rest) = '"' :: normalizeNewlines rest := by
  unfold prepare
  rw [normalizeNewlines_cons_of_ne '"' rest (by decide)]
  simp [stripBOM]

theorem not_mem_normalizeNewlines_of_not_mem (c : Char) (s : JSString) (hc : c ≠ '\n')
    (h : c ∉ s) : c ∉ normalizeNewlines s := by
  intro hm
  rcases mem_normalizeNewlines c s hm with h1 | h1
  · exact h h1
  · exact hc h1

theorem scan_quoted_rest (d : Char) (s : JSString) (h : '"' ∉ s) :
    scan d ('"' :: s) ScanState.init = { rows := [], current := s, inQuotes := true } := by
  rw [scan_open_quote d s ScanState.init rfl]
  have h2 := scan_append_plain d s [] { ScanState.init with inQuotes := true }
    (fun c hc => ⟨fun e => h (e ▸ hc), fun _ => rfl⟩)
  rw [List.append_nil] at h2
  rw [h2]
  simp [scan, ScanState.init]

/-- C18: for a text that starts with a double quote and has no other double
quote, the scan ends in quoted mode with no row pushed and with the whole
rest of the (normalized) text, its line feeds included, in the buffer; so
`parseCsv` tokenizes at most one row, header and rows together: none when the
rest is empty, otherwise the rest split on the sniffed delimiter. -/
theorem C18_unterminated_quote (rest : JSString) (h : '"' ∉ rest) :
    (∀ d, scan d (prepare ('"' :: rest)) ScanState.init
        = { rows := [], current := normalizeNewlines rest, inQuotes := true })
      ∧ tokenizedRows ('"' :: rest)
        = (if normalizeNewlines rest = [] then []
           else [jsSplit (sniffDelimiter (firstLine (prepare ('"' :: rest))))
                  (normalizeNewlines rest)])
      ∧ ('\r' ∉ rest → normalizeNewlines rest = rest)
      ∧ ((parseCsv ('"' :: rest)).headers.toList ++ (parseCsv ('"' :: rest)).rows).length ≤ 1 := by
  have hq : '"' ∉ normalizeNewlines rest :=
    not_mem_normalizeNewlines_of_not_mem '"' rest (by decide) h
  have hscan : ∀ d, scan d (prepare ('"' :: rest)) ScanState.init
      = { rows := [], current := normalizeNewlines rest, inQuotes := true } := by
    intro d
    rw [prepare_quote_cons]
    exact scan_quoted_rest d _ hq
  have htok : tokenizedRows ('"' :: rest)
      = (if normalizeNewlines rest = [] then []
         else [jsSplit (sniffDelimiter (firstLine (prepare ('"' :: rest))))
                (normalizeNewlines rest)]) := by
    unfold tokenizedRows tokenize
    rw [hscan]
    unfold flush
    by_cases he : normalizeNewlines rest = []
    · simp [he]
    · simp [he]
  refine ⟨hscan, htok, ?_, ?_⟩
  · intro hcr
    unfold normalizeNewlines
    rw [replaceCRLF_of_not_mem _ hcr, replaceCR_of_not_mem _ hcr]
  · rw [parseCsv_toList, htok]
    split_ifs <;> simp

/-- C18 at the text `"a,b\nc,d`: one row, the rest of the text split on the
comma, with the line feed inside the second cell. -/
theorem C18_unterminated_quote_witness :
    tokenizedRows "\"a,b\nc,d".toList = [["a".toList, "b\nc".toList, "d".toList]]
      ∧ normalizeNewlines "a,b\nc,d".toList = "a,b\nc,d".toList :=
  ⟨((C18_unterminated_quote "a,b\nc,d".toList (by decide)).2.1).trans (by decide),
   (C18_unterminated_quote "a,b\nc,d".toList (by decide)).2.2.1 (by decide)⟩

theorem scan_cons_newline (d : Char) (t : JSString) (st : ScanState)
    (h : st.inQuotes = false) :
    scan d ('\n' :: t) st
      = scan d t { st with rows := st.rows ++ [jsSplit d st.current], current := [] } := by
  have hstep : ∀ next, scanStep d '\n' next st
      = ({ st with rows := st.rows ++ [jsSplit d st.current], current := [] }, false) := by
    intro next
    unfold scanStep
    have h1 : ¬ ('\n' = '"') := by decide
    simp [h1, h]
  cases t with
  | nil => simp only [scan, hstep]
  | cons e t2 => simp [scan, hstep]

theorem getLast?_cons_of_ne_nil {α : Type} (a : α) (l : List α) (h : l ≠ []) :
    (a :: l).getLast? = l.getLast? := by
  cases l with
  | nil => exact absurd rfl h
  | cons b t => simp [List.getLast?_cons_cons]

theorem scan_lines (d : Char) (s : JSString) (hq : '"' ∉ s) :
    ∀ (cur : JSString) (rows : List (List JSString)), '\n' ∉ cur →
      scan d s { rows := rows, current := cur, inQuotes := false }
        = { rows := rows ++ ((jsSplit '\n' (cur ++ s)).dropLast).map (jsSplit d),
            current := ((jsSplit '\n' (cur ++ s)).getLast?).getD [],
            inQuotes := false } := by
  induction s with
  | nil =>
    intro cur rows hcur
    rw [List.append_nil, jsSplit_of_not_mem '\n' cur hcur]
    simp [scan]
  | cons c t ih =>
    intro cur rows hcur
    have hqt : '"' ∉ t := fun m => hq (by simp [m])
    have hc : c ≠ '"' := fun e => hq (by simp [e])
    by_cases hn : c = '\n'
    · subst hn
      rw [scan_cons_newline d t _ rfl]
      have := ih hqt [] (rows ++ [jsSplit d cur]) (by simp)
      simp only [List.nil_append] at this
      rw [this, jsSplit_append_sep '\n' cur t hcur,
        List.dropLast_cons_of_ne_nil (jsSplit_ne_nil '\n' t),
        getLast?_cons_of_ne_nil _ _ (jsSplit_ne_nil '\n' t)]
      simp
    · rw [scan_cons_plain d c t _ hc (fun e => absurd e hn)]
      have hcur2 : '\n' ∉ cur ++ [c] := by
        simp only [List.mem_append, List.mem_singleton, not_or]
        exact ⟨hcur, fun e => hn e.symm⟩
      have := ih hqt (cur ++ [c]) rows hcur2
      simp only [List.append_assoc, List.singleton_append] at this
      exact this

theorem tokenize_no_quote (d : Char) (s : JSString) (hq : '"' ∉ s) :
    tokenize d s = (dropEmptyLast (jsSplit '\n' s)).map (jsSplit d) := by
  unfold tokenize ScanState.init
  rw [scan_lines d s hq [] [] (by simp)]
  simp only [List.nil_append]
  unfold flush dropEmptyLast
  have hne := jsSplit_ne_nil '\n' s
  cases hl : (jsSplit '\n' s).getLast? with
  | none => exact absurd (List.getLast?_eq_none_iff.1 hl) hne
  | some last =>
    have happ := List.dropLast_append_getLast? last hl
    by_cases he : last = []
    · simp [he]
    · simp only [Option.getD_some, ne_eq, he, not_false_eq_true, if_true, Option.some.injEq,
        if_false]
      conv_rhs => rw [← happ]
      simp

theorem mem_stripBOM (c : Char) (s : JSString) (h : c ∈ stripBOM s) : c ∈ s := by
  cases s with
  | nil => simp [stripBOM] at h
  | cons a rest =>
    by_cases hb : a.toNat = 0xFEFF
    · simp only [stripBOM, hb, if_true] at h
      simp [h]
    · simp only [stripBOM, hb, if_false] at h
      exact h

theorem not_mem_prepare_of_not_mem (c : Char) (s : JSString) (hc : c ≠ '\n')
    (h : c ∉ s) : c ∉ prepare s :=
  fun hm => not_mem_normalizeNewlines_of_not_mem c s hc h (mem_stripBOM c _ hm)

/-- C17: for a text without double quote the tokenized rows of `parseCsv`,
the header if there is one followed by the rows, are the rows of the naive
reference: the normalized text split on the line feed, without the last
segment when it is empty, every line split on the sniffed delimiter.  A blank
line splits into one empty cell, so an interior blank line is a row with one
empty cell. -/
theorem C17_naive_reference (text : JSString) (h : '"' ∉ text) :
    (parseCsv text).headers.toList ++ (parseCsv text).rows = naiveRows text
      ∧ tokenizedRows text = naiveRows text
      ∧ (∀ d, jsSplit d [] = [[]])
      ∧ naiveRows "a,b\n\n1,2\n".toList
        = [["a".toList, "b".toList], [[]], ["1".toList, "2".toList]] := by
  have hrows : tokenizedRows text = naiveRows text := by
    unfold tokenizedRows naiveRows
    exact tokenize_no_quote _ _ (not_mem_prepare_of_not_mem '"' text (by decide) h)
  refine ⟨?_, hrows, fun d => rfl, by decide⟩
  rw [parseCsv_toList, hrows]

/-- C17 at the text `a,b\n\n1,2\n`: header `["a","b"]`, then the blank line
as a row with one empty cell, then `["1","2"]`. -/
theorem C17_naive_reference_witness :
    (parseCsv "a,b\n\n1,2\n".toList).headers.toList ++ (parseCsv "a,b\n\n1,2\n".toList).rows
      = [["a".toList, "b".toList], [[]], ["1".toList, "2".toList]] :=
  ((C17_naive_reference "a,b\n\n1,2\n".toList (by decide)).1).trans (by decide)

/-! ## C14: missing trailing newline -/

theorem normalizeNewlines_snoc (s : JSString) (c : Char) (hc : c ≠ '\r')
    (h : c = '\n' → s.getLast? ≠ some '\r') :
    normalizeNewlines (s ++ [c]) = normalizeNewlines s ++ [c] := by
  have key : replaceCRLF (s ++ [c]) = replaceCRLF s ++ [c] := by
    induction s using replaceCRLF.induct with
    | case1 => simp [replaceCRLF]
    | case2 a =>
      have ha : ¬ (a = '\r' ∧ c = '\n') := by
        rintro ⟨h1, h2⟩
        exact h h2 (by simp [h1])
      simp [replaceCRLF, ha]
    | case3 a b rest hab ih =>
      have hrest : c = '\n' → rest.getLast? ≠ some '\r' := by
        intro e
        have := h e
        cases rest with
        | nil => simp
        | cons x xs => simpa [List.getLast?_cons_cons] using this
      simp only [List.cons_append]
      rw [replaceCRLF, replaceCRLF]
      simp only [hab, and_self, if_true, List.cons_append]
      rw [ih hrest]
    | case4 a b rest hab ih =>
      have hrest : c = '\n' → (b :: rest).getLast? ≠ some '\r' := by
        intro e
        simpa [List.getLast?_cons_cons] using h e
      simp only [List.cons_append]
      rw [replaceCRLF, replaceCRLF]
      simp only [hab, if_false, List.cons_append]
      have := ih hrest
      simp only [List.cons_append] at this
      rw [this]
  unfold normalizeNewlines
  rw [key]
  simp [replaceCR, hc]

theorem normalizeNewlines_snoc_crlf (s : JSString) :
    normalizeNewlines (s ++ ['\r', '\n']) = normalizeNewlines (s ++ ['\r']) := by
  unfold normalizeNewlines
  induction s using replaceCRLF.induct with
  | case1 => simp [replaceCRLF, replaceCR]
  | case2 a =>
    by_cases ha : a = '\r'
    · simp [replaceCRLF, replaceCR, ha]
    · simp [replaceCRLF, replaceCR, ha]
  | case3 a b rest hab ih =>
    simp only [List.cons_append]
    rw [replaceCRLF, replaceCRLF]
    simp only [hab, and_self, if_true]
    simp only [replaceCR, List.map_cons] at ih ⊢
    rw [ih]
  | case4 a b rest hab ih =>
    simp only [List.cons_append] at ih ⊢
    rw [replaceCRLF, replaceCRLF]
    simp only [hab, if_false]
    simp only [replaceCR, List.map_cons] at ih ⊢
    rw [ih]

theorem jsSplit_snoc_sep (d : Char) (s : JSString) :
    jsSplit d (s ++ [d]) = jsSplit d s ++ [[]] := by
  induction s with
  | nil => simp [jsSplit]
  | cons a t ih =>
    by_cases h : a = d
    · simp [jsSplit, h, ih]
    · simp only [List.cons_append, jsSplit, h, if_false]
      rw [show t.append [d] = t ++ [d] from rfl, ih]
      cases hs : jsSplit d t with
      | nil => exact absurd hs (jsSplit_ne_nil d t)
      | cons x xs => simp

theorem getLast?_jsSplit_eq_nil (d : Char) (s : JSString)
    (h : (jsSplit d s).getLast? = some []) : s = [] ∨ s.getLast? = some d := by
  induction s with
  | nil => exact Or.inl rfl
  | cons a t ih =>
    right
    by_cases had : a = d
    · simp only [jsSplit, had, if_true] at h
      rw [getLast?_cons_of_ne_nil _ _ (jsSplit_ne_nil d t)] at h
      rcases ih h with h1 | h1
      · simp [h1, had]
      · cases t with
        | nil => simp at h1
        | cons b r => simpa [List.getLast?_cons_cons] using h1
    · simp only [jsSplit, had, if_false] at h
      cases hs : jsSplit d t with
      | nil => exact absurd hs (jsSplit_ne_nil d t)
      | cons x xs =>
        rw [hs] at h ih
        simp only at h
        cases xs with
        | nil => simp at h
        | cons y ys =>
          rw [List.getLast?_cons_cons] at h ih
          rcases ih h with h1 | h1
          · rw [h1] at hs
            simp [jsSplit] at hs
          · cases t with
            | nil => simp at h1
            | cons b r => simpa [List.getLast?_cons_cons] using h1

theorem firstLine_snoc_newline (p : JSString) : firstLine (p ++ ['\n']) = firstLine p := by
  rw [firstLine_eq_takeWhile, firstLine_eq_takeWhile]
  induction p with
  | nil => simp
  | cons a t ih =>
    by_cases ha : a = '\n'
    · simp [ha]
    · rw [List.cons_append, List.takeWhile_cons_of_pos (by simp [ha]),
        List.takeWhile_cons_of_pos (by simp [ha]), ih]

theorem dropEmptyLast_snoc_nil (l : List JSString) : dropEmptyLast (l ++ [[]]) = l := by
  simp [dropEmptyLast]

theorem dropEmptyLast_of_ne (l : List JSString) (h : l.getLast? ≠ some []) :
    dropEmptyLast l = l := by
  simp [dropEmptyLast, h]

theorem tokenize_snoc_newline (d : Char) (p : JSString) (hq : '"' ∉ p) (hne : p ≠ [])
    (hlast : p.getLast? ≠ some '\n') : tokenize d (p ++ ['\n']) = tokenize d p := by
  have hq2 : '"' ∉ p ++ ['\n'] := by
    simp only [List.mem_append, List.mem_singleton, not_or]
    exact ⟨hq, by decide⟩
  rw [tokenize_no_quote d _ hq2, tokenize_no_quote d _ hq, jsSplit_snoc_sep,
    dropEmptyLast_snoc_nil, dropEmptyLast_of_ne]
  intro h
  rcases getLast?_jsSplit_eq_nil '\n' p h with h1 | h1
  · exact hne h1
  · exact hlast h1

theorem stripBOM_snoc (x : JSString) (c : Char) (h : x ≠ []) :
    stripBOM (x ++ [c]) = stripBOM x ++ [c] := by
  cases x with
  | nil => exact absurd rfl h
  | cons a t =>
    by_cases hb : a.toNat = 0xFEFF
    · simp [stripBOM, hb]
    · simp [stripBOM, hb]

theorem normalizeNewlines_eq_nil (s : JSString) (h : normalizeNewlines s = []) : s = [] := by
  cases s with
  | nil => rfl
  | cons a t =>
    exfalso
    rw [normalizeNewlines_eq_replaceLineEndings] at h
    cases t with
    | nil =>
      rw [replaceLineEndings] at h
      split_ifs at h
    | cons b r =>
      rw [replaceLineEndings] at h
      split_ifs at h

theorem prepare_snoc (s : JSString) (c : Char) (hc : c ≠ '\r') (hn : c ≠ '\n')
    (hbom : s ++ [c] ≠ [Char.ofNat 0xFEFF]) :
    prepare (s ++ [c]) ≠ [] ∧ (prepare (s ++ [c])).getLast? = some c
      ∧ prepare ((s ++ [c]) ++ ['\n']) = prepare (s ++ [c]) ++ ['\n'] := by
  have hn1 : normalizeNewlines (s ++ [c]) = normalizeNewlines s ++ [c] :=
    normalizeNewlines_snoc s c hc (fun e => absurd e hn)
  have hn2 : normalizeNewlines ((s ++ [c]) ++ ['\n']) = normalizeNewlines (s ++ [c]) ++ ['\n'] :=
    normalizeNewlines_snoc (s ++ [c]) '\n' (by decide)
      (fun _ => by simpa using hc)
  have hne : normalizeNewlines (s ++ [c]) ≠ [] := by
    rw [hn1]
    simp
  refine ⟨?_, ?_, ?_⟩
  · unfold prepare
    rw [hn1]
    cases hs : normalizeNewlines s with
    | nil =>
      have hs0 : s = [] := normalizeNewlines_eq_nil s hs
      have hcb : c.toNat ≠ 0xFEFF := by
        intro e
        apply hbom
        rw [hs0, List.nil_append, ← e, Char.ofNat_toNat]
      simp [stripBOM, hcb]
    | cons a x =>
      by_cases hb : a.toNat = 0xFEFF
      · simp [stripBOM, hb]
      · simp [stripBOM, hb]
  · unfold prepare
    rw [hn1]
    cases hs : normalizeNewlines s with
    | nil =>
      have hs0 : s = [] := normalizeNewlines_eq_nil s hs
      have hcb : c.toNat ≠ 0xFEFF := by
        intro e
        apply hbom
        rw [hs0, List.nil_append, ← e, Char.ofNat_toNat]
      simp [stripBOM, hcb]
    | cons a x =>
      by_cases hb : a.toNat = 0xFEFF
      · simp [stripBOM, hb]
      · have e : stripBOM (a :: x ++ [c]) = (a :: x) ++ [c] := by
          simp [stripBOM, hb]
        rw [e]
        exact List.getLast?_concat (a :: x)
  · unfold prepare
    rw [hn2, stripBOM_snoc _ _ hne]

theorem parseCsv_snoc_newline (t : JSString) (hq : '"' ∉ t) (hne : t ≠ [])
    (hlast : t.getLast? ≠ some '\n') (hbom : t ≠ [Char.ofNat 0xFEFF]) :
    parseCsv (t ++ ['\n']) = parseCsv t := by
  rcases List.eq_nil_or_concat t with h0 | ⟨s, c, hsc⟩
  · exact absurd h0 hne
  · rw [List.concat_eq_append] at hsc
    subst hsc
    have hcn : c ≠ '\n' := by
      intro e
      apply hlast
      simp [e]
    by_cases hcr : c = '\r'
    · subst hcr
      have hprep : prepare ((s ++ ['\r']) ++ ['\n']) = prepare (s ++ ['\r']) := by
        unfold prepare
        rw [List.append_assoc]
        exact congrArg stripBOM (normalizeNewlines_snoc_crlf s)
      unfold parseCsv tokenizedRows
      rw [hprep]
    · obtain ⟨hp1, hp2, hp3⟩ := prepare_snoc s c hcr hcn hbom
      have hpq : '"' ∉ prepare (s ++ [c]) :=
        not_mem_prepare_of_not_mem '"' _ (by decide) hq
      unfold parseCsv tokenizedRows
      rw [hp3, firstLine_snoc_newline,
        tokenize_snoc_newline _ _ hpq hp1 (by rw [hp2]; simpa using hcn)]

/-- C14, as stated, fails at the text that is only a byte-order mark: it has
no double quote, does not end with a newline and is not empty, yet `parseCsv`
returns no header and no rows for it and the header `[""]` for the text with a
line feed added. -/
theorem C14_bom_only_counterexample :
    '"' ∉ [Char.ofNat 0xFEFF]
      ∧ [Char.ofNat 0xFEFF] ≠ []
      ∧ [Char.ofNat 0xFEFF].getLast? ≠ some '\n'
      ∧ parseCsv [Char.ofNat 0xFEFF] = { headers := none, rows := [] }
      ∧ parseCsv ([Char.ofNat 0xFEFF] ++ ['\n']) = { headers := some [[]], rows := [] }
      ∧ parseCsv [Char.ofNat 0xFEFF] ≠ parseCsv ([Char.ofNat 0xFEFF] ++ ['\n']) := by
  decide

/-- C14 (amended): for every text that contains no double quote, does not end
with a line feed, is not empty and is not only a byte-order mark, `parseCsv`
gives the same result for the text and for the text with a line feed added;
when the text does not end with a CR either, the buffer left after the scan is
not empty and is flushed as exactly one final row. -/
theorem C14_missing_trailing_newline (t : JSString) (hq : '"' ∉ t) (hne : t ≠ [])
    (hlast : t.getLast? ≠ some '\n') (hbom : t ≠ [Char.ofNat 0xFEFF]) :
    parseCsv t = parseCsv (t ++ ['\n'])
      ∧ (t.getLast? ≠ some '\r' →
          (scan (sniffDelimiter (firstLine (prepare t))) (prepare t) ScanState.init).current ≠ []
            ∧ tokenizedRows t
              = (scan (sniffDelimiter (firstLine (prepare t))) (prepare t) ScanState.init).rows
                ++ [jsSplit (sniffDelimiter (firstLine (prepare t)))
                     (scan (sniffDelimiter (firstLine (prepare t))) (prepare t)
                       ScanState.init).current]) := by
  refine ⟨(parseCsv_snoc_newline t hq hne hlast hbom).symm, ?_⟩
  intro hcr
  rcases List.eq_nil_or_concat t with h0 | ⟨s, c, hsc⟩
  · exact absurd h0 hne
  · rw [List.concat_eq_append] at hsc
    subst hsc
    have hcn : c ≠ '\n' := by
      intro e
      apply hlast
      simp [e]
    have hcr2 : c ≠ '\r' := by
      intro e
      apply hcr
      simp [e]
    obtain ⟨hp1, hp2, _⟩ := prepare_snoc s c hcr2 hcn hbom
    have hpq : '"' ∉ prepare (s ++ [c]) :=
      not_mem_prepare_of_not_mem '"' _ (by decide) hq
    have hcur : (scan (sniffDelimiter (firstLine (prepare (s ++ [c])))) (prepare (s ++ [c]))
        ScanState.init).current ≠ [] := by
      unfold ScanState.init
      rw [scan_lines _ _ hpq [] [] (by simp)]
      simp only [List.nil_append]
      intro he
      cases hl : (jsSplit '\n' (prepare (s ++ [c]))).getLast? with
      | none => exact absurd (List.getLast?_eq_none_iff.1 hl) (jsSplit_ne_nil _ _)
      | some last =>
        rw [hl] at he
        simp only [Option.getD_some] at he
        rw [he] at hl
        rcases getLast?_jsSplit_eq_nil '\n' _ hl with h1 | h1
        · exact hp1 h1
        · rw [hp2] at h1
          exact hcn (Option.some.inj h1)
    refine ⟨hcur, ?_⟩
    unfold tokenizedRows tokenize flush
    rw [if_pos hcur]

/-- C14 (amended) at the text `a,b\n1,2`: the same result with the line feed
added, and the buffer `1,2` is flushed as the last row. -/
theorem C14_missing_trailing_newline_witness :
    parseCsv "a,b\n1,2".toList = parseCsv ("a,b\n1,2".toList ++ ['\n'])
      ∧ tokenizedRows "a,b\n1,2".toList = [["a".toList, "b".toList], ["1".toList, "2".toList]] :=
  ⟨(C14_missing_trailing_newline "a,b\n1,2".toList (by decide) (by decide) (by decide)
      (by decide)).1,
   (((C14_missing_trailing_newline "a,b\n1,2".toList (by decide) (by decide) (by decide)
      (by decide)).2 (by decide)).2).trans (by decide)⟩

/-! ## UTF-8, base64 and percent-encoding round trips -/

theorem char_valid (c : Char) :
    c.toNat < 0xD800 ∨ (0xDFFF < c.toNat ∧ c.toNat < 0x110000) := c.valid

theorem toNat_ofNat_of_valid (n : Nat) (h : n < 0xD800 ∨ (0xDFFF < n ∧ n < 0x110000)) :
    (Char.ofNat n).toNat = n := by
  have h2 : n.isValidChar := h
  rw [Char.ofNat, dif_pos h2]
  rfl

theorem ofNat_eq_of_toNat (n : Nat) (c : Char) (h : n = c.toNat) : Char.ofNat n = c := by
  subst h
  exact Char.ofNat_toNat c

theorem utf8Decode_ascii (b : Nat) (rest : List Nat) (h : b ≤ 0x7F) :
    utf8Decode (b :: rest) Utf8Decoder.init = Char.ofNat b :: utf8Decode rest Utf8Decoder.init := by
  rw [utf8Decode]
  simp [utf8Handler, Utf8Decoder.init, h]

theorem utf8Decode_cont_mid (st : Utf8Decoder) (b : Nat) (rest : List Nat)
    (hn : st.bytesNeeded ≠ 0) (hr : st.lower ≤ b ∧ b ≤ st.upper)
    (hs : st.bytesSeen + 1 ≠ st.bytesNeeded) :
    utf8Decode (b :: rest) st
      = utf8Decode rest { st with lower := 0x80, upper := 0xBF,
                                  codePoint := st.codePoint * 64 + b % 64,
                                  bytesSeen := st.bytesSeen + 1 } := by
  rw [utf8Decode]
  simp [utf8Handler, hn, hr, hs]

theorem utf8Decode_cont_last (st : Utf8Decoder) (b : Nat) (rest : List Nat)
    (hn : st.bytesNeeded ≠ 0) (hr : st.lower ≤ b ∧ b ≤ st.upper)
    (hs : st.bytesSeen + 1 = st.bytesNeeded) :
    utf8Decode (b :: rest) st
      = Char.ofNat (st.codePoint * 64 + b % 64) :: utf8Decode rest Utf8Decoder.init := by
  rw [utf8Decode]
  simp [utf8Handler, hn, hr, hs]

theorem utf8Handler_init_no_pushback (b : Nat) :
    (utf8Handler Utf8Decoder.init b).2.2 = false := by
  unfold utf8Handler
  simp only [Utf8Decoder.init, if_true]
  split_ifs <;> rfl

theorem utf8Decode_cont_bad (st : Utf8Decoder) (b : Nat) (rest : List Nat)
    (hn : st.bytesNeeded ≠ 0) (hr : ¬ (st.lower ≤ b ∧ b ≤ st.upper)) :
    utf8Decode (b :: rest) st
      = replacementChar :: utf8Decode (b :: rest) Utf8Decoder.init := by
  have h1 : utf8Handler st b = (Utf8Decoder.init, [replacementChar], true) := by
    unfold utf8Handler
    rw [if_neg hn, if_pos hr]
  conv_lhs => rw [utf8Decode]
  conv_rhs => rw [utf8Decode]
  rw [h1, utf8Handler_init_no_pushback]
  simp

theorem utf8Decode_lead2 (b : Nat) (rest : List Nat) (h1 : 0xC2 ≤ b ∧ b ≤ 0xDF) :
    utf8Decode (b :: rest) Utf8Decoder.init
      = utf8Decode rest { codePoint := b % 32, bytesSeen := 0, bytesNeeded := 1,
                          lower := 0x80, upper := 0xBF } := by
  have e1 : ¬ b ≤ 0x7F := by omega
  rw [utf8Decode]
  simp [utf8Handler, Utf8Decoder.init, e1, h1]

theorem utf8Decode_lead3 (b : Nat) (rest : List Nat) (h1 : 0xE0 ≤ b ∧ b ≤ 0xEF) :
    utf8Decode (b :: rest) Utf8Decoder.init
      = utf8Decode rest { codePoint := b % 16, bytesSeen := 0, bytesNeeded := 2,
                          lower := if b = 0xE0 then 0xA0 else 0x80,
                          upper := if b = 0xED then 0x9F else 0xBF } := by
  have e1 : ¬ b ≤ 0x7F := by omega
  have e2 : ¬ (0xC2 ≤ b ∧ b ≤ 0xDF) := by omega
  rw [utf8Decode]
  simp [utf8Handler, Utf8Decoder.init, e1, e2, h1]

theorem utf8Decode_lead4 (b : Nat) (rest : List Nat) (h1 : 0xF0 ≤ b ∧ b ≤ 0xF4) :
    utf8Decode (b :: rest) Utf8Decoder.init
      = utf8Decode rest { codePoint := b % 8, bytesSeen := 0, bytesNeeded := 3,
                          lower := if b = 0xF0 then 0x90 else 0x80,
                          upper := if b = 0xF4 then 0x8F else 0xBF } := by
  have e1 : ¬ b ≤ 0x7F := by omega
  have e2 : ¬ (0xC2 ≤ b ∧ b ≤ 0xDF) := by omega
  have e3 : ¬ (0xE0 ≤ b ∧ b ≤ 0xEF) := by omega
  rw [utf8Decode]
  simp [utf8Handler, Utf8Decoder.init, e1, e2, e3, h1]

theorem utf8Decode_bad_lead (b : Nat) (rest : List Nat)
    (h : (0x80 ≤ b ∧ b ≤ 0xC1) ∨ 0xF5 ≤ b) :
    utf8Decode (b :: rest) Utf8Decoder.init
      = replacementChar :: utf8Decode rest Utf8Decoder.init := by
  have e1 : ¬ b ≤ 0x7F := by omega
  have e2 : ¬ (0xC2 ≤ b ∧ b ≤ 0xDF) := by omega
  have e3 : ¬ (0xE0 ≤ b ∧ b ≤ 0xEF) := by omega
  have e4 : ¬ (0xF0 ≤ b ∧ b ≤ 0xF4) := by omega
  rw [utf8Decode]
  simp [utf8Handler, Utf8Decoder.init, e1, e2, e3, e4]

theorem utf8Decode_two (b1 b2 : Nat) (rest : List Nat) (h1 : 0xC2 ≤ b1 ∧ b1 ≤ 0xDF)
    (h2 : 0x80 ≤ b2 ∧ b2 ≤ 0xBF) :
    utf8Decode (b1 :: b2 :: rest) Utf8Decoder.init
      = Char.ofNat (b1 % 32 * 64 + b2 % 64) :: utf8Decode rest Utf8Decoder.init := by
  rw [utf8Decode_lead2 b1 _ h1, utf8Decode_cont_last _ b2 rest (by simp) h2 rfl]

theorem utf8Decode_three (b1 b2 b3 : Nat) (rest : List Nat) (h1 : 0xE0 ≤ b1 ∧ b1 ≤ 0xEF)
    (h2 : (if b1 = 0xE0 then 0xA0 else 0x80) ≤ b2 ∧ b2 ≤ (if b1 = 0xED then 0x9F else 0xBF))
    (h3 : 0x80 ≤ b3 ∧ b3 ≤ 0xBF) :
    utf8Decode (b1 :: b2 :: b3 :: rest) Utf8Decoder.init
      = Char.ofNat ((b1 % 16 * 64 + b2 % 64) * 64 + b3 % 64)
          :: utf8Decode rest Utf8Decoder.init := by
  rw [utf8Decode_lead3 b1 _ h1, utf8Decode_cont_mid _ b2 _ (by simp) h2 (by simp),
    utf8Decode_cont_last _ b3 rest (by simp) h3 rfl]

theorem utf8Decode_four (b1 b2 b3 b4 : Nat) (rest : List Nat) (h1 : 0xF0 ≤ b1 ∧ b1 ≤ 0xF4)
    (h2 : (if b1 = 0xF0 then 0x90 else 0x80) ≤ b2 ∧ b2 ≤ (if b1 = 0xF4 then 0x8F else 0xBF))
    (h3 : 0x80 ≤ b3 ∧ b3 ≤ 0xBF) (h4 : 0x80 ≤ b4 ∧ b4 ≤ 0xBF) :
    utf8Decode (b1 :: b2 :: b3 :: b4 :: rest) Utf8Decoder.init
      = Char.ofNat (((b1 % 8 * 64 + b2 % 64) * 64 + b3 % 64) * 64 + b4 % 64)
          :: utf8Decode rest Utf8Decoder.init := by
  rw [utf8Decode_lead4 b1 _ h1, utf8Decode_cont_mid _ b2 _ (by simp) h2 (by simp),
    utf8Decode_cont_mid _ b3 _ (by simp) h3 (by simp),
    utf8Decode_cont_last _ b4 rest (by simp) h4 rfl]

theorem utf8Decode_encodeChar (c : Char) (rest : List Nat) :
    utf8Decode (utf8EncodeChar c ++ rest) Utf8Decoder.init
      = c :: utf8Decode rest Utf8Decoder.init := by
  have hv := char_valid c
  unfold utf8EncodeChar
  by_cases h1 : c.toNat < 0x80
  · rw [if_pos h1, List.singleton_append, utf8Decode_ascii _ _ (by omega), Char.ofNat_toNat]
  · rw [if_neg h1]
    by_cases h2 : c.toNat < 0x800
    · rw [if_pos h2]
      simp only [List.cons_append, List.nil_append]
      rw [utf8Decode_two _ _ _ (by omega) (by omega)]
      congr 1
      exact ofNat_eq_of_toNat _ c (by omega)
    · rw [if_neg h2]
      by_cases h3 : c.toNat < 0x10000
      · rw [if_pos h3]
        simp only [List.cons_append, List.nil_append]
        rw [utf8Decode_three _ _ _ _ (by omega) (by split_ifs <;> omega) (by omega)]
        congr 1
        exact ofNat_eq_of_toNat _ c (by omega)
      · rw [if_neg h3]
        simp only [List.cons_append, List.nil_append]
        rw [utf8Decode_four _ _ _ _ _ (by omega) (by split_ifs <;> omega) (by omega)
          (by omega)]
        congr 1
        exact ofNat_eq_of_toNat _ c (by omega)

theorem utf8Decode_encode (t : JSString) :
    utf8Decode (utf8Encode t) Utf8Decoder.init = t := by
  induction t with
  | nil => simp [utf8Encode, utf8Decode, Utf8Decoder.init]
  | cons c rest ih => rw [utf8Encode, utf8Decode_encodeChar, ih]

theorem base64Char_toNat (v : Nat) (h : v < 64) :
    (base64Char v).toNat
      = if v < 26 then 65 + v else if v < 52 then 71 + v else if v < 62 then v - 4
        else if v = 62 then 43 else 47 := by
  unfold base64Char
  simp only [Char.reduceToNat]
  by_cases h1 : v < 26
  · rw [if_pos h1, if_pos h1, toNat_ofNat_of_valid _ (by omega)]
  · rw [if_neg h1, if_neg h1]
    by_cases h2 : v < 52
    · rw [if_pos h2, if_pos h2, toNat_ofNat_of_valid _ (by omega)]
      omega
    · rw [if_neg h2, if_neg h2]
      by_cases h3 : v < 62
      · rw [if_pos h3, if_pos h3, toNat_ofNat_of_valid _ (by omega)]
        omega
      · rw [if_neg h3, if_neg h3]
        by_cases h4 : v = 62
        · rw [if_pos h4, if_pos h4]
          rfl
        · rw [if_neg h4, if_neg h4]
          rfl

theorem base64Value_base64Char (v : Nat) (h : v < 64) :
    base64Value (base64Char v) = some v := by
  have hn := base64Char_toNat v h
  simp only [base64Value, Char.reduceToNat, hn]
  split_ifs <;> (try simp only [Option.some.injEq]) <;> omega

theorem base64Value_not_special (c : Char) (v : Nat) (h : base64Value c = some v) :
    c ≠ '=' ∧ isAsciiWhitespace c = false := by
  constructor
  · intro e
    have hnone : base64Value '=' = none := by decide
    rw [e, hnone] at h
    cases h
  · simp only [base64Value, Char.reduceToNat] at h
    have : c.toNat ≠ 9 ∧ c.toNat ≠ 10 ∧ c.toNat ≠ 12 ∧ c.toNat ≠ 13 ∧ c.toNat ≠ 32 := by
      split_ifs at h <;> omega
    simp [isAsciiWhitespace, this]

theorem base64Char_not_special (v : Nat) (h : v < 64) :
    base64Char v ≠ '=' ∧ isAsciiWhitespace (base64Char v) = false :=
  base64Value_not_special _ v (base64Value_base64Char v h)

theorem removeTrailingEquals_cons (c : Char) (rest : JSString) (h : c ≠ '=') :
    removeTrailingEquals (c :: rest) = c :: removeTrailingEquals rest := by
  simp [removeTrailingEquals, h]

theorem base64Values_cons (c : Char) (rest : JSString) (v : Nat) (vs : List Nat)
    (h1 : base64Value c = some v) (h2 : base64Values rest = some vs) :
    base64Values (c :: rest) = some (v :: vs) := by
  simp [base64Values, h1, h2]

theorem base64Values_map (vs : List Nat) (h : ∀ v ∈ vs, v < 64) :
    base64Values (vs.map base64Char) = some vs := by
  induction vs with
  | nil => rfl
  | cons v t ih =>
    exact base64Values_cons _ _ v t (base64Value_base64Char v (h v (by simp)))
      (ih (fun x hx => h x (by simp [hx])))

theorem base64Encode_unpadded (bs : List Nat) (hb : ∀ b ∈ bs, b < 256) :
    ∃ vs : List Nat, removeTrailingEquals (base64Encode bs) = vs.map base64Char
      ∧ (∀ v ∈ vs, v < 64) ∧ vs.length % 4 ≠ 1 ∧ sextetsToBytes vs = bs := by
  induction bs using base64Encode.induct with
  | case1 b1 b2 b3 rest ih =>
    have h1 : b1 < 256 := hb b1 (by simp)
    have h2 : b2 < 256 := hb b2 (by simp)
    have h3 : b3 < 256 := hb b3 (by simp)
    obtain ⟨vs, e1, e2, e3, e4⟩ := ih (fun b hm => hb b (by simp [hm]))
    refine ⟨b1 / 4 :: (b1 % 4 * 16 + b2 / 16) :: (b2 % 16 * 4 + b3 / 64) :: (b3 % 64) :: vs,
      ?_, ?_, ?_, ?_⟩
    · rw [base64Encode,
        removeTrailingEquals_cons _ _ (base64Char_not_special _ (by omega)).1,
        removeTrailingEquals_cons _ _ (base64Char_not_special _ (by omega)).1,
        removeTrailingEquals_cons _ _ (base64Char_not_special _ (by omega)).1,
        removeTrailingEquals_cons _ _ (base64Char_not_special _ (by omega)).1, e1]
      rfl
    · intro v hv
      simp only [List.mem_cons] at hv
      rcases hv with hv | hv | hv | hv | hv
      · omega
      · omega
      · omega
      · omega
      · exact e2 v hv
    · simp only [List.length_cons]
      omega
    · rw [sextetsToBytes, e4]
      congr 1
      · omega
      · congr 1
        · omega
        · congr 1
          omega
  | case2 b1 b2 =>
    have h1 : b1 < 256 := hb b1 (by simp)
    have h2 : b2 < 256 := hb b2 (by simp)
    refine ⟨[b1 / 4, b1 % 4 * 16 + b2 / 16, b2 % 16 * 4], ?_, ?_, ?_, ?_⟩
    · rw [base64Encode,
        removeTrailingEquals_cons _ _ (base64Char_not_special _ (by omega)).1,
        removeTrailingEquals_cons _ _ (base64Char_not_special _ (by omega)).1,
        removeTrailingEquals_cons _ _ (base64Char_not_special _ (by omega)).1]
      simp [removeTrailingEquals]
    · intro v hv
      simp only [List.mem_cons, List.mem_singleton, List.not_mem_nil, or_false] at hv
      rcases hv with hv | hv | hv <;> omega
    · simp
    · rw [sextetsToBytes]
      congr 1
      · omega
      · congr 1
        omega
  | case3 b1 =>
    have h1 : b1 < 256 := hb b1 (by simp)
    refine ⟨[b1 / 4, b1 % 4 * 16], ?_, ?_, ?_, ?_⟩
    · rw [base64Encode,
        removeTrailingEquals_cons _ _ (base64Char_not_special _ (by omega)).1,
        removeTrailingEquals_cons _ _ (base64Char_not_special _ (by omega)).1]
      simp [removeTrailingEquals]
    · intro v hv
      simp only [List.mem_cons, List.mem_singleton, List.not_mem_nil, or_false] at hv
      rcases hv with hv | hv <;> omega
    · simp
    · rw [sextetsToBytes]
      congr 1
      omega
  | case4 => exact ⟨[], rfl, by simp, by simp, rfl⟩

theorem base64Encode_length (bs : List Nat) : (base64Encode bs).length % 4 = 0 := by
  induction bs using base64Encode.induct with
  | case1 b1 b2 b3 rest ih =>
    rw [base64Encode]
    simp only [List.length_cons]
    omega
  | case2 b1 b2 => simp [base64Encode]
  | case3 b1 => simp [base64Encode]
  | case4 => rfl

theorem base64Encode_filter (bs : List Nat) (hb : ∀ b ∈ bs, b < 256) :
    (base64Encode bs).filter (fun c => !isAsciiWhitespace c) = base64Encode bs := by
  rw [List.filter_eq_self]
  intro c hc
  have hws : isAsciiWhitespace '=' = false := by decide
  induction bs using base64Encode.induct with
  | case1 b1 b2 b3 rest ih =>
    have h1 : b1 < 256 := hb b1 (by simp)
    have h2 : b2 < 256 := hb b2 (by simp)
    have h3 : b3 < 256 := hb b3 (by simp)
    rw [base64Encode] at hc
    simp only [List.mem_cons] at hc
    rcases hc with hc | hc | hc | hc | hc
    · rw [hc, (base64Char_not_special _ (by omega)).2]; rfl
    · rw [hc, (base64Char_not_special _ (by omega)).2]; rfl
    · rw [hc, (base64Char_not_special _ (by omega)).2]; rfl
    · rw [hc, (base64Char_not_special _ (by omega)).2]; rfl
    · exact ih (fun b hm => hb b (by simp [hm])) hc
  | case2 b1 b2 =>
    have h1 : b1 < 256 := hb b1 (by simp)
    have h2 : b2 < 256 := hb b2 (by simp)
    rw [base64Encode] at hc
    simp only [List.mem_cons, List.mem_singleton, List.not_mem_nil, or_false] at hc
    rcases hc with hc | hc | hc | hc
    · rw [hc, (base64Char_not_special _ (by omega)).2]; rfl
    · rw [hc, (base64Char_not_special _ (by omega)).2]; rfl
    · rw [hc, (base64Char_not_special _ (by omega)).2]; rfl
    · rw [hc, hws]; rfl
  | case3 b1 =>
    have h1 : b1 < 256 := hb b1 (by simp)
    rw [base64Encode] at hc
    simp only [List.mem_cons, List.mem_singleton, List.not_mem_nil, or_false] at hc
    rcases hc with hc | hc | hc | hc
    · rw [hc, (base64Char_not_special _ (by omega)).2]; rfl
    · rw [hc, (base64Char_not_special _ (by omega)).2]; rfl
    · rw [hc, hws]; rfl
    · rw [hc, hws]; rfl
  | case4 => simp [base64Encode] at hc

theorem atob_base64Encode (bs : List Nat) (hb : ∀ b ∈ bs, b < 256) :
    atob (base64Encode bs) = some bs := by
  obtain ⟨vs, e1, e2, e3, e4⟩ := base64Encode_unpadded bs hb
  unfold atob
  simp only [base64Encode_filter bs hb, base64Encode_length bs, if_true, e1, List.length_map,
    e3, if_false, base64Values_map vs e2, Option.map_some', e4]

theorem hexDigit_toNat (v : Nat) (h : v < 16) :
    (hexDigit v).toNat = if v < 10 then 48 + v else 55 + v := by
  unfold hexDigit
  simp only [Char.reduceToNat]
  by_cases h1 : v < 10
  · rw [if_pos h1, if_pos h1, toNat_ofNat_of_valid _ (by omega)]
  · rw [if_neg h1, if_neg h1, toNat_ofNat_of_valid _ (by omega)]
    omega

theorem hexValue_hexDigit (v : Nat) (h : v < 16) : hexValue (hexDigit v) = some v := by
  have hn := hexDigit_toNat v h
  simp only [hexValue, Char.reduceToNat, hn]
  split_ifs <;> (try simp only [Option.some.injEq]) <;> omega

theorem parseHexOctet_hexDigit (b : Nat) (h : b < 256) :
    parseHexOctet (hexDigit (b / 16)) (hexDigit (b % 16)) = some b := by
  unfold parseHexOctet
  rw [hexValue_hexDigit _ (by omega), hexValue_hexDigit _ (by omega)]
  simp only [Option.some.injEq]
  omega

theorem readEscapes_percentEncodeBytes (bs : List Nat) (rest : JSString)
    (hb : ∀ b ∈ bs, b < 256) :
    readEscapes bs.length (percentEncodeBytes bs ++ rest) = some (bs, rest) := by
  induction bs with
  | nil => rfl
  | cons b t ih =>
    rw [percentEncodeBytes]
    simp only [List.length_cons, List.cons_append]
    rw [readEscapes]
    simp only [if_true]
    rw [parseHexOctet_hexDigit b (hb b (by simp)), ih (fun x hx => hb x (by simp [hx]))]

theorem utf8EncodeChar_lt (c : Char) : ∀ b ∈ utf8EncodeChar c, b < 256 := by
  have hv := char_valid c
  intro b hb
  unfold utf8EncodeChar at hb
  split_ifs at hb <;>
    simp only [List.mem_cons, List.mem_singleton, List.not_mem_nil, or_false] at hb <;>
    omega

theorem utf8Encode_lt (t : JSString) : ∀ b ∈ utf8Encode t, b < 256 := by
  induction t with
  | nil => simp [utf8Encode]
  | cons c rest ih =>
    intro b hb
    rw [utf8Encode, List.mem_append] at hb
    rcases hb with hb | hb
    · exact utf8EncodeChar_lt c b hb
    · exact ih b hb

theorem utf8EncodeChar_multi (c : Char) (h : ¬ c.toNat < 0x80) :
    ∃ b1 octets, utf8EncodeChar c = b1 :: octets ∧ leadingOnes b1 = octets.length + 1
      ∧ octets.length ≤ 3 ∧ 1 ≤ octets.length ∧ utf8CodePoint (b1 :: octets) = some c := by
  have hv := char_valid c
  unfold utf8EncodeChar
  rw [if_neg h]
  by_cases h2 : c.toNat < 0x800
  · rw [if_pos h2]
    refine ⟨_, _, rfl, ?_, by simp, by simp, ?_⟩
    · unfold leadingOnes
      simp only [List.length_cons, List.length_nil]
      rw [if_neg (by omega), if_neg (by omega), if_pos (by omega)]
    · rw [utf8CodePoint]
      rw [if_pos (by omega)]
      congr 1
      exact ofNat_eq_of_toNat _ c (by omega)
  · rw [if_neg h2]
    by_cases h3 : c.toNat < 0x10000
    · rw [if_pos h3]
      refine ⟨_, _, rfl, ?_, by simp, by simp, ?_⟩
      · unfold leadingOnes
        simp only [List.length_cons, List.length_nil]
        rw [if_neg (by omega), if_neg (by omega), if_neg (by omega), if_pos (by omega)]
      · rw [utf8CodePoint]
        rw [if_pos (by
          refine ⟨by omega, by omega, ?_, ?_, by omega, by omega⟩
          · split_ifs <;> omega
          · split_ifs <;> omega)]
        congr 1
        exact ofNat_eq_of_toNat _ c (by omega)
    · rw [if_neg h3]
      refine ⟨_, _, rfl, ?_, by simp, by simp, ?_⟩
      · unfold leadingOnes
        simp only [List.length_cons, List.length_nil]
        rw [if_neg (by omega), if_neg (by omega), if_neg (by omega), if_neg (by omega),
          if_pos (by omega)]
      · rw [utf8CodePoint]
        rw [if_pos (by
          refine ⟨by omega, by omega, ?_, ?_, by omega, by omega, by omega, by omega⟩
          · split_ifs <;> omega
          · split_ifs <;> omega)]
        congr 1
        exact ofNat_eq_of_toNat _ c (by omega)

theorem decodeURILoop_encodeChar (c : Char) (rest : JSString) (fuel : Nat) :
    decodeURILoop (fuel + 1)
        ((if isUriUnescaped c then [c] else percentEncodeBytes (utf8EncodeChar c)) ++ rest)
      = (decodeURILoop fuel rest).map (c :: ·) := by
  by_cases hu : isUriUnescaped c = true
  · have hc : c ≠ '%' := by
      intro e
      rw [e] at hu
      revert hu
      decide
    rw [if_pos hu, List.singleton_append]
    conv_lhs => unfold decodeURILoop
    simp [hc]
  · rw [if_neg hu]
    by_cases h1 : c.toNat < 0x80
    · have henc : utf8EncodeChar c = [c.toNat] := by
        unfold utf8EncodeChar
        rw [if_pos h1]
      rw [henc, percentEncodeBytes, percentEncodeBytes]
      simp only [List.cons_append, List.nil_append]
      rw [decodeURILoop]
      simp only [ne_eq, not_true_eq_false, if_false]
      rw [parseHexOctet_hexDigit _ (by omega)]
      have hl : leadingOnes c.toNat = 0 := by
        unfold leadingOnes
        rw [if_pos h1]
      simp only [hl, if_true, Char.ofNat_toNat]
    · obtain ⟨b1, octets, henc, hl, hlen3, hlen1, hcp⟩ := utf8EncodeChar_multi c h1
      have hlt := utf8EncodeChar_lt c
      rw [henc] at hlt
      rw [henc, percentEncodeBytes]
      simp only [List.cons_append]
      rw [decodeURILoop]
      simp only [ne_eq, not_true_eq_false, if_false]
      rw [parseHexOctet_hexDigit _ (hlt b1 (by simp))]
      have hne0 : ¬ leadingOnes b1 = 0 := by omega
      have hok : ¬ (leadingOnes b1 = 1 ∨ 4 < leadingOnes b1) := by omega
      have hn : leadingOnes b1 - 1 = octets.length := by omega
      simp only [hne0, hok, if_false, hn]
      rw [readEscapes_percentEncodeBytes octets rest (fun b hb => hlt b (by simp [hb]))]
      simp only [hcp]

theorem percentEncode_length_cons (c : Char) (rest : JSString) :
    (percentEncode rest).length < (percentEncode (c :: rest)).length := by
  rw [percentEncode, List.length_append]
  have : 0 < (if isUriUnescaped c then [c]
      else percentEncodeBytes (utf8EncodeChar c)).length := by
    split_ifs
    · simp
    · by_cases h1 : c.toNat < 0x80
      · have henc : utf8EncodeChar c = [c.toNat] := by
          unfold utf8EncodeChar
          rw [if_pos h1]
        rw [henc, percentEncodeBytes]
        simp
      · obtain ⟨b1, octets, henc, _⟩ := utf8EncodeChar_multi c h1
        rw [henc, percentEncodeBytes]
        simp
  omega

theorem decodeURILoop_percentEncode (t : JSString) :
    ∀ fuel, (percentEncode t).length < fuel → decodeURILoop fuel (percentEncode t) = some t := by
  induction t with
  | nil =>
    intro fuel hf
    cases fuel with
    | zero => omega
    | succ f => rfl
  | cons c rest ih =>
    intro fuel hf
    cases fuel with
    | zero => omega
    | succ f =>
      have hlen := percentEncode_length_cons c rest
      rw [percentEncode, decodeURILoop_encodeChar, ih f (by omega)]
      rfl

theorem decodeURIComponent_percentEncode (t : JSString) :
    decodeURIComponent (percentEncode t) = some t :=
  decodeURILoop_percentEncode t _ (Nat.lt_succ_self _)

theorem utf8Decode_nil_pending (st : Utf8Decoder) (hn : st.bytesNeeded ≠ 0) :
    utf8Decode [] st = [replacementChar] := by
  rw [utf8Decode, if_pos hn]

theorem utf8EncodeChar_ofNat1 (b : Nat) (h : b ≤ 0x7F) :
    utf8EncodeChar (Char.ofNat b) = [b] := by
  unfold utf8EncodeChar
  rw [toNat_ofNat_of_valid _ (by omega), if_pos (by omega)]

theorem utf8EncodeChar_ofNat2 (b1 b2 : Nat) (h1 : 0xC2 ≤ b1 ∧ b1 ≤ 0xDF)
    (h2 : 0x80 ≤ b2 ∧ b2 ≤ 0xBF) :
    utf8EncodeChar (Char.ofNat (b1 % 32 * 64 + b2 % 64)) = [b1, b2] := by
  unfold utf8EncodeChar
  rw [toNat_ofNat_of_valid _ (by omega), if_neg (by omega), if_pos (by omega)]
  congr 1
  · omega
  · congr 1
    omega

theorem utf8EncodeChar_ofNat3 (b1 b2 b3 : Nat) (h1 : 0xE0 ≤ b1 ∧ b1 ≤ 0xEF)
    (h2 : (if b1 = 0xE0 then 0xA0 else 0x80) ≤ b2 ∧ b2 ≤ (if b1 = 0xED then 0x9F else 0xBF))
    (h3 : 0x80 ≤ b3 ∧ b3 ≤ 0xBF) :
    utf8EncodeChar (Char.ofNat ((b1 % 16 * 64 + b2 % 64) * 64 + b3 % 64)) = [b1, b2, b3] := by
  have h2a : 0x80 ≤ b2 ∧ b2 ≤ 0xBF ∧ (b1 = 0xE0 → 0xA0 ≤ b2) ∧ (b1 = 0xED → b2 ≤ 0x9F) := by
    split_ifs at h2 <;> omega
  unfold utf8EncodeChar
  rw [toNat_ofNat_of_valid _ (by omega), if_neg (by omega), if_neg (by omega),
    if_pos (by omega)]
  congr 1
  · omega
  · congr 1
    · omega
    · congr 1
      omega

theorem utf8EncodeChar_ofNat4 (b1 b2 b3 b4 : Nat) (h1 : 0xF0 ≤ b1 ∧ b1 ≤ 0xF4)
    (h2 : (if b1 = 0xF0 then 0x90 else 0x80) ≤ b2 ∧ b2 ≤ (if b1 = 0xF4 then 0x8F else 0xBF))
    (h3 : 0x80 ≤ b3 ∧ b3 ≤ 0xBF) (h4 : 0x80 ≤ b4 ∧ b4 ≤ 0xBF) :
    utf8EncodeChar (Char.ofNat (((b1 % 8 * 64 + b2 % 64) * 64 + b3 % 64) * 64 + b4 % 64))
      = [b1, b2, b3, b4] := by
  have h2a : 0x80 ≤ b2 ∧ b2 ≤ 0xBF ∧ (b1 = 0xF0 → 0x90 ≤ b2) ∧ (b1 = 0xF4 → b2 ≤ 0x8F) := by
    split_ifs at h2 <;> omega
  unfold utf8EncodeChar
  rw [toNat_ofNat_of_valid _ (by omega), if_neg (by omega), if_neg (by omega),
    if_neg (by omega)]
  congr 1
  · omega
  · congr 1
    · omega
    · congr 1
      · omega
      · congr 1
        omega

theorem utf8Encode_utf8Decode_aux :
    ∀ (n : Nat) (bytes : List Nat), bytes.length ≤ n →
      replacementChar ∉ utf8Decode bytes Utf8Decoder.init →
      utf8Encode (utf8Decode bytes Utf8Decoder.init) = bytes := by
  intro n
  induction n with
  | zero =>
    intro bytes hl _
    have hb : bytes = [] := List.length_eq_zero.1 (by omega)
    subst hb
    simp [utf8Decode, Utf8Decoder.init, utf8Encode]
  | succ n ih =>
    intro bytes hl h
    cases bytes with
    | nil => simp [utf8Decode, Utf8Decoder.init, utf8Encode]
    | cons b rest =>
      have hlr : rest.length ≤ n := by
        simp only [List.length_cons] at hl
        omega
      by_cases c1 : b ≤ 0x7F
      · rw [utf8Decode_ascii b rest c1] at h ⊢
        have h2 : replacementChar ∉ utf8Decode rest Utf8Decoder.init :=
          fun m => h (List.mem_cons_of_mem _ m)
        rw [utf8Encode, utf8EncodeChar_ofNat1 b c1, ih rest hlr h2]
        rfl
      · by_cases c2 : 0xC2 ≤ b ∧ b ≤ 0xDF
        · cases rest with
          | nil =>
            exfalso
            apply h
            rw [utf8Decode_lead2 b [] c2, utf8Decode_nil_pending _ (by simp)]
            simp
          | cons b2 r =>
            have hlr2 : r.length ≤ n := by
              simp only [List.length_cons] at hlr
              omega
            by_cases d2 : 0x80 ≤ b2 ∧ b2 ≤ 0xBF
            · rw [utf8Decode_two b b2 r c2 d2] at h ⊢
              have h2 : replacementChar ∉ utf8Decode r Utf8Decoder.init :=
                fun m => h (List.mem_cons_of_mem _ m)
              rw [utf8Encode, utf8EncodeChar_ofNat2 b b2 c2 d2, ih r hlr2 h2]
              rfl
            · exfalso
              apply h
              rw [utf8Decode_lead2 b _ c2, utf8Decode_cont_bad _ b2 r (by simp) d2]
              simp
        · by_cases c3 : 0xE0 ≤ b ∧ b ≤ 0xEF
          · cases rest with
            | nil =>
              exfalso
              apply h
              rw [utf8Decode_lead3 b [] c3, utf8Decode_nil_pending _ (by simp)]
              simp
            | cons b2 r =>
              by_cases d2 : (if b = 0xE0 then 0xA0 else 0x80) ≤ b2
                  ∧ b2 ≤ (if b = 0xED then 0x9F else 0xBF)
              · cases r with
                | nil =>
                  exfalso
                  apply h
                  rw [utf8Decode_lead3 b _ c3, utf8Decode_cont_mid _ b2 _ (by simp) d2 (by simp),
                    utf8Decode_nil_pending _ (by simp)]
                  simp
                | cons b3 r3 =>
                  have hlr3 : r3.length ≤ n := by
                    simp only [List.length_cons] at hlr
                    omega
                  by_cases d3 : 0x80 ≤ b3 ∧ b3 ≤ 0xBF
                  · rw [utf8Decode_three b b2 b3 r3 c3 d2 d3] at h ⊢
                    have h2 : replacementChar ∉ utf8Decode r3 Utf8Decoder.init :=
                      fun m => h (List.mem_cons_of_mem _ m)
                    rw [utf8Encode, utf8EncodeChar_ofNat3 b b2 b3 c3 d2 d3, ih r3 hlr3 h2]
                    rfl
                  · exfalso
                    apply h
                    rw [utf8Decode_lead3 b _ c3,
                      utf8Decode_cont_mid _ b2 _ (by simp) d2 (by simp),
                      utf8Decode_cont_bad _ b3 r3 (by simp) d3]
                    simp
              · exfalso
                apply h
                rw [utf8Decode_lead3 b _ c3, utf8Decode_cont_bad _ b2 r (by simp) d2]
                simp
          · by_cases c4 : 0xF0 ≤ b ∧ b ≤ 0xF4
            · cases rest with
              | nil =>
                exfalso
                apply h
                rw [utf8Decode_lead4 b [] c4, utf8Decode_nil_pending _ (by simp)]
                simp
              | cons b2 r =>
                by_cases d2 : (if b = 0xF0 then 0x90 else 0x80) ≤ b2
                    ∧ b2 ≤ (if b = 0xF4 then 0x8F else 0xBF)
                · cases r with
                  | nil =>
                    exfalso
                    apply h
                    rw [utf8Decode_lead4 b _ c4,
                      utf8Decode_cont_mid _ b2 _ (by simp) d2 (by simp),
                      utf8Decode_nil_pending _ (by simp)]
                    simp
                  | cons b3 r3 =>
                    by_cases d3 : 0x80 ≤ b3 ∧ b3 ≤ 0xBF
                    · cases r3 with
                      | nil =>
                        exfalso
                        apply h
                        rw [utf8Decode_lead4 b _ c4,
                          utf8Decode_cont_mid _ b2 _ (by simp) d2 (by simp),
                          utf8Decode_cont_mid _ b3 _ (by simp) d3 (by simp),
                          utf8Decode_nil_pending _ (by simp)]
                        simp
                      | cons b4 r4 =>
                        have hlr4 : r4.length ≤ n := by
                          simp only [List.length_cons] at hlr
                          omega
                        by_cases d4 : 0x80 ≤ b4 ∧ b4 ≤ 0xBF
                        · rw [utf8Decode_four b b2 b3 b4 r4 c4 d2 d3 d4] at h ⊢
                          have h2 : replacementChar ∉ utf8Decode r4 Utf8Decoder.init :=
                            fun m => h (List.mem_cons_of_mem _ m)
                          rw [utf8Encode, utf8EncodeChar_ofNat4 b b2 b3 b4 c4 d2 d3 d4,
                            ih r4 hlr4 h2]
                          rfl
                        · exfalso
                          apply h
                          rw [utf8Decode_lead4 b _ c4,
                            utf8Decode_cont_mid _ b2 _ (by simp) d2 (by simp),
                            utf8Decode_cont_mid _ b3 _ (by simp) d3 (by simp),
                            utf8Decode_cont_bad _ b4 r4 (by simp) d4]
                          simp
                    · exfalso
                      apply h
                      rw [utf8Decode_lead4 b _ c4,
                        utf8Decode_cont_mid _ b2 _ (by simp) d2 (by simp),
                        utf8Decode_cont_bad _ b3 r3 (by simp) d3]
                      simp
                · exfalso
                  apply h
                  rw [utf8Decode_lead4 b _ c4, utf8Decode_cont_bad _ b2 r (by simp) d2]
                  simp
            · exfalso
              apply h
              rw [utf8Decode_bad_lead b rest (by omega)]
              simp

theorem utf8Decode_has_replacement (bytes : List Nat) (h : ¬ ∃ t, utf8Encode t = bytes) :
    replacementChar ∈ utf8Decode bytes Utf8Decoder.init := by
  by_contra hn
  exact h ⟨_, utf8Encode_utf8Decode_aux bytes.length bytes (Nat.le_refl _) hn⟩

/-! ## C11, C12: envelopes and decode failures -/

theorem parseDataUrl_build (m p : JSString) (hm : ',' ∉ m) :
    parseDataUrl ("data:".toList ++ m ++ ',' :: p)
      = some { mime := if m.takeWhile (fun c => decide (c ≠ ';')) = [] then "text/plain".toList
                       else m.takeWhile (fun c => decide (c ≠ ';')),
               isBase64 := decide ("base64".toList ∈ jsSplit ';' m),
               payload := p } := by
  have hpre : jsStartsWith ("data:".toList ++ m ++ ',' :: p) "data:".toList = true := by
    simp [jsStartsWith]
  have hmem : ',' ∉ "data:".toList ++ m := by
    simp only [List.mem_append, not_or]
    exact ⟨by decide, hm⟩
  have hidx : jsIndexOf ',' ("data:".toList ++ m ++ ',' :: p)
      = some ("data:".toList ++ m).length :=
    jsIndexOf_append_of_not_mem ',' ("data:".toList ++ m) p hmem
  have hsub : jsSubstring ("data:".toList ++ m ++ ',' :: p) 5 ("data:".toList ++ m).length
      = m := by
    unfold jsSubstring
    rw [List.take_left]
    exact List.drop_left "data:".toList m
  have hpay : jsSubstringFrom ("data:".toList ++ m ++ ',' :: p)
      (("data:".toList ++ m).length + 1) = p := by
    have hlen : ("data:".toList ++ m).length + 1 = ("data:".toList ++ m ++ [',']).length := by
      simp
    have happ : "data:".toList ++ m ++ ',' :: p = ("data:".toList ++ m ++ [',']) ++ p := by
      simp
    rw [jsSubstringFrom, happ, hlen, List.drop_left]
  unfold parseDataUrl
  rw [hpre, hidx]
  simp only [Bool.not_true, Bool.false_eq_true, if_false, hsub, hpay, jsSplit_headD]
  simp

theorem textDecoderDecode_utf8Encode (t : JSString) :
    textDecoderDecode (utf8Encode t) = stripBOM t := by
  unfold textDecoderDecode stripBOM
  rw [utf8Decode_encode]
  cases t <;> rfl

theorem decodeBase64ToText_base64Encode (t : JSString) :
    decodeBase64ToText (base64Encode (utf8Encode t)) = stripBOM t := by
  unfold decodeBase64ToText
  rw [atob_base64Encode _ (utf8Encode_lt t)]
  exact textDecoderDecode_utf8Encode t

theorem csvTextOfDataUrl_percent (payload : JSString) :
    csvTextOfDataUrl ("data:text/csv,".toList ++ payload) = decodeURIComponent payload := by
  have e : "data:text/csv,".toList ++ payload
      = "data:".toList ++ "text/csv".toList ++ ',' :: payload := by
    simp
  have hb : decide ("base64".toList ∈ jsSplit ';' "text/csv".toList) = false := by decide
  unfold csvTextOfDataUrl
  rw [e, parseDataUrl_build "text/csv".toList payload (by decide)]
  simp only [hb, Bool.false_eq_true, if_false]

theorem csvTextOfDataUrl_base64 (payload : JSString) :
    csvTextOfDataUrl ("data:text/csv;base64,".toList ++ payload)
      = some (decodeBase64ToText payload) := by
  have e : "data:text/csv;base64,".toList ++ payload
      = "data:".toList ++ "text/csv;base64".toList ++ ',' :: payload := by
    simp
  have hb : decide ("base64".toList ∈ jsSplit ';' "text/csv;base64".toList) = true := by
    decide
  unfold csvTextOfDataUrl
  rw [e, parseDataUrl_build "text/csv;base64".toList payload (by decide)]
  simp only [hb, if_true]

/-- C11, as stated, fails on the base64 path for a text that starts with
U+FEFF: `TextDecoder` drops a leading byte-order mark, so the envelope built
from U+FEFF followed by `a` gives back `a` alone. -/
theorem C11_base64_bom_counterexample :
    csvTextOfDataUrl ("data:text/csv;base64,".toList
        ++ base64Encode (utf8Encode [Char.ofNat 0xFEFF, 'a'])) = some ['a']
      ∧ csvTextOfDataUrl ("data:text/csv;base64,".toList
        ++ base64Encode (utf8Encode [Char.ofNat 0xFEFF, 'a'])) ≠ some [Char.ofNat 0xFEFF, 'a'] := by
  decide

/-- C11 (amended): for every text, the envelope `data:text/csv,` followed by
the percent-encoding of the text gives back exactly the text; the envelope
`data:text/csv;base64,` followed by the base64 of the UTF-8 bytes of the text
gives back exactly the text when the text does not start with U+FEFF, and the
text without that first character when it does. -/
theorem C11_envelope_round_trip (t : JSString) :
    csvTextOfDataUrl ("data:text/csv,".toList ++ percentEncode t) = some t
      ∧ (t.head? ≠ some (Char.ofNat 0xFEFF) →
          csvTextOfDataUrl ("data:text/csv;base64,".toList ++ base64Encode (utf8Encode t))
            = some t)
      ∧ (∀ rest, t = Char.ofNat 0xFEFF :: rest →
          csvTextOfDataUrl ("data:text/csv;base64,".toList ++ base64Encode (utf8Encode t))
            = some rest) := by
  refine ⟨?_, ?_, ?_⟩
  · rw [csvTextOfDataUrl_percent, decodeURIComponent_percentEncode]
  · intro h
    rw [csvTextOfDataUrl_base64, decodeBase64ToText_base64Encode, stripBOM_of_head t h]
  · intro rest h
    rw [csvTextOfDataUrl_base64, decodeBase64ToText_base64Encode, h]
    simp [stripBOM]

/-- C11 (amended) at the text of the attachment of `init`: its base64 envelope
is the URL in the script and gives back the text; and at the text U+FEFF `a`,
whose envelope gives back `a`. -/
theorem C11_envelope_round_trip_witness :
    csvTextOfDataUrl ("data:text/csv;base64,UHJvZHVjdHMsU2FsZXMKUGhvbmVzLDEwMDAKQm9va3Ms"
        ++ "MTIzLjQ1Ck5vdGVib29rcywxMTEuMTEK").toList
        = some "Products,Sales\nPhones,1000\nBooks,123.45\nNotebooks,111.11\n".toList
      ∧ csvTextOfDataUrl ("data:text/csv;base64,".toList
          ++ base64Encode (utf8Encode [Char.ofNat 0xFEFF, 'a'])) = some ['a'] := by
  have h := (C11_envelope_round_trip
    "Products,Sales\nPhones,1000\nBooks,123.45\nNotebooks,111.11\n".toList).2.1 (by decide)
  have e : "data:text/csv;base64,".toList ++ base64Encode (utf8Encode
      "Products,Sales\nPhones,1000\nBooks,123.45\nNotebooks,111.11\n".toList)
      = ("data:text/csv;base64,UHJvZHVjdHMsU2FsZXMKUGhvbmVzLDEwMDAKQm9va3Ms"
        ++ "MTIzLjQ1Ck5vdGVib29rcywxMTEuMTEK").toList := by
    decide
  rw [e] at h
  exact ⟨h, (C11_envelope_round_trip [Char.ofNat 0xFEFF, 'a']).2.2 ['a'] rfl⟩

theorem mem_textDecoderDecode (bytes : List Nat)
    (h : replacementChar ∈ utf8Decode bytes Utf8Decoder.init) :
    replacementChar ∈ textDecoderDecode bytes := by
  unfold textDecoderDecode
  cases hd : utf8Decode bytes Utf8Decoder.init with
  | nil =>
    rw [hd] at h
    simp at h
  | cons c rest =>
    rw [hd] at h
    by_cases hb : c.toNat = 0xFEFF
    · simp only [hb, if_true]
      simp only [List.mem_cons] at h
      rcases h with h | h
      · exfalso
        rw [← h] at hb
        revert hb
        decide
      · exact h
    · simp only [hb, if_false]
      exact h

/-- C12, as stated, fails for a valid base64 payload whose bytes are not valid
UTF-8: `/w==` decodes to the byte 255, which is the UTF-8 encoding of no text,
and `decodeBase64ToText` returns U+FFFD, not the empty string. -/
theorem C12_invalid_utf8_counterexample :
    atob "/w==".toList = some [255]
      ∧ (¬ ∃ t, utf8Encode t = [255])
      ∧ decodeBase64ToText "/w==".toList = [replacementChar]
      ∧ decodeBase64ToText "/w==".toList ≠ [] := by
  refine ⟨by decide, ?_, by decide, by decide⟩
  rintro ⟨t, ht⟩
  have h := utf8Decode_encode t
  rw [ht] at h
  have h2 : utf8Decode [255] Utf8Decoder.init = [replacementChar] := by decide
  rw [h2] at h
  rw [← h] at ht
  revert ht
  decide

/-- C12 (amended): for every payload that is not valid base64,
`decodeBase64ToText` returns the empty string; for a valid base64 payload it
returns the bytes decoded as UTF-8 with U+FFFD in place of every invalid
sequence, and when the bytes are not valid UTF-8 the result contains U+FFFD
and is not the empty string.  The function is defined for every payload. -/
theorem C12_decode_failure (payload : JSString) :
    (atob payload = none → decodeBase64ToText payload = [])
      ∧ (∀ bytes, atob payload = some bytes →
          decodeBase64ToText payload = textDecoderDecode bytes)
      ∧ (∀ bytes, atob payload = some bytes → (¬ ∃ t, utf8Encode t = bytes) →
          replacementChar ∈ decodeBase64ToText payload ∧ decodeBase64ToText payload ≠ []) := by
  refine ⟨?_, ?_, ?_⟩
  · intro h
    unfold decodeBase64ToText
    rw [h]
  · intro bytes h
    unfold decodeBase64ToText
    rw [h]
  · intro bytes h hinv
    have hm : replacementChar ∈ decodeBase64ToText payload := by
      unfold decodeBase64ToText
      rw [h]
      exact mem_textDecoderDecode bytes (utf8Decode_has_replacement bytes hinv)
    exact ⟨hm, List.ne_nil_of_mem hm⟩

/-- C12 (amended) at the payloads `a*b`, which is not base64 and gives the
empty string, and `/w==`, whose byte 255 is not UTF-8 and gives U+FFFD. -/
theorem C12_decode_failure_witness :
    decodeBase64ToText "a*b".toList = []
      ∧ decodeBase64ToText "/w==".toList = textDecoderDecode [255]
      ∧ (replacementChar ∈ decodeBase64ToText "/w==".toList
          ∧ decodeBase64ToText "/w==".toList ≠ []) :=
  ⟨(C12_decode_failure "a*b".toList).1 (by decide),
   (C12_decode_failure "/w==".toList).2.1 [255] (by decide),
   (C12_decode_failure "/w==".toList).2.2 [255] (by decide) (by
      rintro ⟨t, ht⟩
      have h := utf8Decode_encode t
      rw [ht] at h
      have h2 : utf8Decode [255] Utf8Decoder.init = [replacementChar] := by decide
      rw [h2] at h
      rw [← h] at ht
      revert ht
      decide)⟩

end SumOfSales
